import Mathlib

/-!
Shallow embedding of the node-generation and graph-mutation pipeline of the
stem-connect backend (src/backend/main.py and src/backend/adk/adk.py), together
with proofs about the embedded operations.

Conventions used throughout:
* Python `int` is modelled as `Int`, Python `str` as `String`.
* Python float division `total_months / 12` is modelled as exact division in
  `Rat`; for the month values involved the float comparisons agree with the
  rational ones.
* Python dicts are modelled as association lists (`List (String × PyVal)`),
  dict indexing (`d["k"]`, raising `KeyError`) as an `Except Unit` computation,
  and `d.get(k, default)` as an `Option` lookup with a default.
* Calls into external collaborators (the text generator, `json.loads`, the
  image generator, the object store, `random.randint`) are modelled as oracle
  parameters: a function argument describing the collaborator's outcome at
  each call site.  `raise` in Python is `Except.error`.
* The database tables are modelled as in-memory lists of rows; the
  `ON CONFLICT (id) DO NOTHING` inserts become insert-if-id-absent functions.
-/

/-! ## Small string utilities (Python `str.split()`, `" ".join`, `f"{n}"`) -/

/-- Whitespace as recognised by Python `str.split()` (ASCII part). -/
def pyIsSpace (c : Char) : Bool :=
  c == ' ' || c == '\t' || c == '\n' || c == '\r' || c == '\x0b' || c == '\x0c'

/-- Worker for `pySplitWhitespace`: splits a character list at whitespace
runs, dropping empty words, accumulating the current word reversed. -/
def wordsGo : List Char → List Char → List (List Char)
  | [], acc => if acc.isEmpty then [] else [acc.reverse]
  | c :: cs, acc =>
    if pyIsSpace c then
      if acc.isEmpty then wordsGo cs [] else acc.reverse :: wordsGo cs []
    else wordsGo cs (c :: acc)

/-- Python `s.split()` with no argument: split on whitespace runs, no empty
words. -/
def pySplitWhitespace (s : String) : List String :=
  (wordsGo s.toList []).map String.mk

/-- Python `" ".join(ws)`. -/
def joinSpace : List String → String
  | [] => ""
  | [w] => w
  | w :: ws => w ++ " " ++ joinSpace ws

/-- Decimal digit character, used to render counters like Python `f"{n}"`. -/
def digitChar : Nat → Char
  | 0 => '0' | 1 => '1' | 2 => '2' | 3 => '3' | 4 => '4'
  | 5 => '5' | 6 => '6' | 7 => '7' | 8 => '8' | _ => '9'

/-- Fuelled decimal rendering of a natural number (most significant digit
first); fuel `n + 1` always suffices. -/
def natCharsAux : Nat → Nat → List Char
  | 0, _ => []
  | fuel + 1, n =>
    if n < 10 then [digitChar n] else natCharsAux fuel (n / 10) ++ [digitChar (n % 10)]

/-- Decimal rendering of a natural number, as in Python `f"{n}"`. -/
def natStr (n : Nat) : String :=
  String.mk (natCharsAux (n + 1) n)

/-! ## `calculate_cumulative_time` (src/backend/adk/adk.py lines 456-472) -/

/-- A row of the `all_links` list handed to `calculate_cumulative_time`: a
dict with `source`, `target` and `timeInMonths` keys, as selected from the
link table in `add_node`. -/
structure LinkDict where
  source : String
  target : String
  timeInMonths : Int
deriving DecidableEq, Repr

/-- Embedding of `calculate_cumulative_time`: walk consecutive pairs of the
highlight path; for the pair at positions `i, i+1` look for the first link
whose source is the later node (`path[i+1]`) and whose target is the earlier
node (`path[i]`) and add its `timeInMonths`; a pair with no matching link
adds nothing (the Python inner loop just never hits its `break`). -/
def calculate_cumulative_time : List String → List LinkDict → Int
  | a :: b :: rest, all_links =>
    (match all_links.find? (fun l => l.source == b && l.target == a) with
     | some l => l.timeInMonths
     | none => 0) + calculate_cumulative_time (b :: rest) all_links
  | _, _ => 0

/-- The cumulative-time computation as worded by the specification: the sum,
over each consecutive pair `(earlier, later)` of the path, of the
`timeInMonths` of the link with source `later` and target `earlier`, a pair
without such a link contributing nothing. -/
def cumulative_time_spec (path : List String) (all_links : List LinkDict) : Int :=
  ((path.zip path.tail).map (fun p =>
    match all_links.find? (fun l => l.source == p.2 && l.target == p.1) with
    | some l => l.timeInMonths
    | none => 0)).sum

/-! ## `get_aging_context` and `get_mortality_context`
(src/backend/adk/adk.py lines 475-502) -/

/-- Embedding of `get_aging_context`: `years = total_months / 12` (exact
division) mapped through the six aging bands. -/
def get_aging_context (total_months : Int) : String :=
  let years : Rat := (total_months : Rat) / 12
  if years < 2 then
    "The person should look the same age as in the reference image."
  else if years < 5 then
    "The person should look slightly older, with subtle signs of maturity."
  else if years < 10 then
    "The person should look noticeably older, showing clear signs of aging and maturity."
  else if years < 20 then
    "The person should look significantly older, with visible aging, possible gray hair, and mature features."
  else if years < 30 then
    "The person should look much older, with considerable aging, gray/white hair, and mature/elderly features."
  else
    "The person should look elderly, with significant aging, white hair, wrinkles, and the wisdom of advanced age."

/-- Embedding of `get_mortality_context`: empty under 30 elapsed years, a
soft health note for 30 to 50 years, explicit end-of-life framing beyond. -/
def get_mortality_context (total_months : Int) : String :=
  let years : Rat := (total_months : Rat) / 12
  if years < 30 then
    ""
  else if years < 50 then
    "Consider that significant time has passed. Health and mortality may become relevant considerations."
  else
    "With the substantial time that has passed, consider life\x27s natural progression including potential health challenges, retirement, or end-of-life considerations."

/-! ## `delete_node` (src/backend/main.py lines 535-656) -/

/-- The reserved root-id pattern: `"Now"` or an id starting with `"Now-"`
(Python `node_id == "Now" or node_id.startswith("Now-")`). -/
def isRootId (s : String) : Bool :=
  s == "Now" || "Now-".toList.isPrefixOf s.toList

/-- Successors used by the delete traversal: targets of links leaving `cur`,
never the node being deleted (Python
`if source == current and target != node_id: dfs_from_now(target)`). -/
def delSuccs (all_links : List (String × String)) (node_id cur : String) : List String :=
  (all_links.filter (fun e => e.1 == cur && e.2 != node_id)).map (fun e => e.2)

/-- Worklist form of the recursive `dfs_from_now` in `delete_node`: pop a
node; skip it when already visited or equal to the node being deleted,
otherwise mark it visited and push its successors.  The fuel only serves
termination; `dfs_from_now` supplies enough for the traversal to finish. -/
def dfsAux (all_links : List (String × String)) (node_id : String) :
    Nat → List String → List String → List String
  | _, visited, [] => visited
  | 0, visited, _ :: _ => visited
  | fuel + 1, visited, cur :: stack =>
    if cur ∈ visited ∨ cur = node_id then
      dfsAux all_links node_id fuel visited stack
    else
      dfsAux all_links node_id fuel (cur :: visited) (delSuccs all_links node_id cur ++ stack)

/-- The visited set of `dfs_from_now(now_node)`: depth-first traversal from
the root following `source → target` links, never entering the node being
deleted. -/
def dfs_from_now (all_links : List (String × String)) (node_id now_node : String) :
    List String :=
  dfsAux all_links node_id
    ((all_links.length + 1) * (all_links.length + 1) + 1) [] [now_node]

/-- One user's persisted graph as read by `delete_node`: the node-id set and
the `(source, target)` edge set. -/
structure GraphState where
  nodes : List String
  links : List (String × String)
deriving DecidableEq, Repr

/-- The root-id search in `delete_node`
(`for node in all_nodes: if node == "Now" or node.startswith("Now-"): ...`). -/
def findNowNode (all_nodes : List String) : Option String :=
  all_nodes.find? (fun n => isRootId n)

/-- `reachable_nodes` as computed by `delete_node`: empty when the user has
no root node, otherwise the DFS visited set from the root avoiding the
deleted node. -/
def reachable_nodes (s : GraphState) (node_id : String) : List String :=
  match findNowNode s.nodes with
  | some now_node => dfs_from_now s.links node_id now_node
  | none => []

/-- `unreachable_nodes = all_nodes - reachable_nodes - {node_id}`. -/
def unreachable_nodes (s : GraphState) (node_id : String) : List String :=
  s.nodes.filter (fun n => n ∉ reachable_nodes s node_id ∧ n ≠ node_id)

/-- `nodes_to_delete = {node_id} | unreachable_nodes`. -/
def nodes_to_delete (s : GraphState) (node_id : String) : List String :=
  node_id :: unreachable_nodes s node_id

/-- The graph rows surviving the delete: the link deletes remove every link
with either endpoint in `nodes_to_delete`, the node deletes remove exactly
`nodes_to_delete`. -/
def stateAfterDelete (s : GraphState) (node_id : String) : GraphState :=
  { nodes := s.nodes.filter (fun n => n ∉ nodes_to_delete s node_id),
    links := s.links.filter
      (fun e => e.1 ∉ nodes_to_delete s node_id ∧ e.2 ∉ nodes_to_delete s node_id) }

/-- The JSON report returned by a successful `delete_node`. -/
structure DeleteReport where
  deleted_node : String
  cascade_deleted : List String
  total_deleted : Nat
  remaining_nodes : Nat
deriving DecidableEq, Repr

/-- The body of the `try` block of the `delete_node` endpoint: reject the
root pattern with an `HTTPException(400)`, reject a missing node with an
`HTTPException(404)`, otherwise delete and report.  `Except.error` carries
the HTTP status of the raised exception; the state component is the
database after the call (the rejections commit nothing). -/
def delete_node_inner (s : GraphState) (node_id : String) :
    Except Nat (DeleteReport × GraphState) :=
  if isRootId node_id then
    .error 400
  else if node_id ∉ s.nodes then
    .error 404
  else
    .ok ({ deleted_node := node_id,
           cascade_deleted := unreachable_nodes s node_id,
           total_deleted := (nodes_to_delete s node_id).length,
           remaining_nodes := s.nodes.length - (nodes_to_delete s node_id).length },
         stateAfterDelete s node_id)

/-- The whole `delete_node` endpoint: the enclosing
`except Exception as e: raise HTTPException(status_code=500, ...)` catches
every exception raised in the body - including the `HTTPException(400)` and
`HTTPException(404)` rejections, `fastapi.HTTPException` being an
`Exception` subclass - and re-raises it as a 500.  The second component is
the database state after the call. -/
def delete_node (s : GraphState) (node_id : String) :
    Except Nat DeleteReport × GraphState :=
  match delete_node_inner s node_id with
  | .error _ => (.error 500, s)
  | .ok (r, s2) => (.ok r, s2)

/-- Forward reachability over an edge list: `Reach links a b` holds when
there is a path from `a` to `b` following edges `source → target`. -/
inductive Reach (links : List (String × String)) (a : String) : String → Prop
  | refl : Reach links a a
  | step {b c : String} : Reach links a b → (b, c) ∈ links → Reach links a c

/-! ## Python dict values, as produced by `json.loads` on the generator
output and consumed by `generate_life_events_with_adk` / `add_node` -/

/-- Scalar JSON/dict values appearing in event dicts. -/
inductive PyVal where
  | vStr (s : String)
  | vInt (n : Int)
deriving DecidableEq, Repr

/-- A parsed array element: an event dict, or some other JSON value (a
number, a string, a nested array), on which dict operations raise. -/
inductive PyElem where
  | dict (fields : List (String × PyVal))
  | other
deriving DecidableEq, Repr

/-- Dict lookup returning an `Option` (Python `k in d` / `d.get(k)`). -/
def getKey? (fields : List (String × PyVal)) (k : String) : Option PyVal :=
  (fields.find? (fun p => p.1 == k)).map (fun p => p.2)

/-- Dict item assignment `d[k] = v`: replace in place, or append. -/
def setKey (fields : List (String × PyVal)) (k : String) (v : PyVal) :
    List (String × PyVal) :=
  if fields.any (fun p => p.1 == k) then
    fields.map (fun p => if p.1 == k then (k, v) else p)
  else fields ++ [(k, v)]

/-- Dict indexing `e[k]`: `KeyError` when the key is absent, `TypeError`
when the element is not a dict. -/
def elemGet (e : PyElem) (k : String) : Except Unit PyVal :=
  match e with
  | .dict d => match getKey? d k with | some v => .ok v | none => .error ()
  | .other => .error ()

/-- Python `e.get(k, dflt)`: a default instead of `KeyError`; still an
`AttributeError` on a non-dict. -/
def elemGetD (e : PyElem) (k : String) (dflt : PyVal) : Except Unit PyVal :=
  match e with
  | .dict d => .ok ((getKey? d k).getD dflt)
  | .other => .error ()

/-- Expect a string value (Python would raise when using str methods on a
non-string here). -/
def asStr : PyVal → Except Unit String
  | .vStr s => .ok s
  | .vInt _ => .error ()

/-- Expect an integer value (Python model validation would reject the rest
here). -/
def asInt : PyVal → Except Unit Int
  | .vInt n => .ok n
  | .vStr _ => .error ()

/-! ## `generate_life_events_with_adk` (src/backend/adk/adk.py lines 270-453) -/

/-- The per-event time/positivity configuration computed before the `try`
block: a fixed positive request value is used as-is, otherwise a fresh
`random.randint` draw per event.  The draws are oracle streams `randT`
(`randint(1, 24)`) and `randP` (`randint(0, 100)`) indexed by event. -/
structure EventConfig where
  time_months : Int
  positivity : Int
deriving DecidableEq, Repr

/-- The `events_config` list built by the loop preceding the generator
call. -/
def events_config (time_in_months positivity : Int) (randT randP : Nat → Int)
    (num_nodes : Nat) : List EventConfig :=
  (List.range num_nodes).map (fun i =>
    { time_months := if time_in_months > 0 then time_in_months else randT i,
      positivity := if positivity ≥ 0 then positivity else randP i })

/-- Index of the last occurrence of a character (Python `str.rfind`),
`none` when absent. -/
def lastIdxOf (cs : List Char) (c : Char) : Option Nat :=
  ((cs.enum.filter (fun p => p.2 == c)).map (fun p => p.1)).getLast?

/-- The JSON-substring extraction of `generate_life_events_with_adk`:
`start_idx = response_text.find("[")`, `end_idx = response_text.rfind("]") + 1`,
usable only when `start_idx >= 0 and end_idx > start_idx`. -/
def extract_json_str (response_text : String) : Option String :=
  let cs := response_text.toList
  match cs.findIdx? (fun ch => ch == '['), lastIdxOf cs ']' with
  | some s, some e =>
    if s < e + 1 then some (String.mk ((cs.drop s).take (e + 1 - s))) else none
  | _, _ => none

/-- The image fields event `i` receives from its gathered task outcome:
`("", "")` when the task raised (the exception is captured by
`asyncio.gather(..., return_exceptions=True)` and not propagated), the
task's `(filename, signed_url)` pair otherwise. -/
def image_outcome (imageRes : Nat → Except Unit (String × String)) (i : Nat) :
    String × String :=
  match imageRes i with
  | .error _ => ("", "")
  | .ok fu => fu

/-- Per-event image decoration on the success path: building the
`generate_event_image` task evaluates `event["name"]` and
`event["description"]` (a missing key raises out of the `try` block); the
gathered per-task outcome `imageRes i` is an exception (`.error`, converted
into empty image fields) or a `(filename, signed_url)` pair stored into the
event dict. -/
def decorate_event (imageRes : Nat → Except Unit (String × String))
    (p : Nat × PyElem) : Except Unit PyElem :=
  match elemGet p.2 "name", elemGet p.2 "description", p.2 with
  | .ok _, .ok _, .dict d =>
    let fu := image_outcome imageRes p.1
    .ok (.dict (setKey (setKey d "image_name" (.vStr fu.1)) "image_url" (.vStr fu.2)))
  | _, _, _ => .error ()

/-- The task-construction plus decoration loop over the selected events (in
candidate-array order; the gathered image outcomes are matched back by
index, not completion order). -/
def decorate_all (imageRes : Nat → Except Unit (String × String)) :
    List (Nat × PyElem) → Except Unit (List PyElem)
  | [] => .ok []
  | p :: rest =>
    match decorate_event imageRes p with
    | .error e => .error e
    | .ok e =>
      match decorate_all imageRes rest with
      | .error e2 => .error e2
      | .ok es => .ok (e :: es)

/-- The deterministic fallback list: one placeholder event per requested
node, with `time_months` / `positivity_score` taken from the `events_config`
entry computed before the generator was invoked. -/
def fallback_events (time_in_months positivity : Int) (randT randP : Nat → Int)
    (num_nodes : Nat) : List PyElem :=
  (events_config time_in_months positivity randT randP num_nodes).enum.map (fun p =>
    .dict [("name", .vStr ("Event " ++ natStr (p.1 + 1))),
           ("title", .vStr ("Life Event " ++ natStr (p.1 + 1))),
           ("description", .vStr "A significant life event."),
           ("type", .vStr "fallback"),
           ("time_months", .vInt p.2.time_months),
           ("positivity_score", .vInt p.2.positivity)])

/-- Embedding of `generate_life_events_with_adk` after the prompt has been
composed.  Oracles: `randT`/`randP` the `random.randint` draws, `gen` the
text-generator call (raises or returns the raw response text), `loads` the
`json.loads` call on the extracted substring (raises `JSONDecodeError` or
returns a parsed array), `imageRes` the gathered per-index image-task
outcomes.  Every failure - generator exception, no array-shaped substring,
parse failure, fewer than `num_nodes` elements, or a missing
`name`/`description` during task construction - lands in the deterministic
fallback list built from `events_config`. -/
def generate_life_events (time_in_months positivity : Int) (num_nodes : Nat)
    (randT randP : Nat → Int) (gen : Except Unit String)
    (loads : String → Except Unit (List PyElem))
    (imageRes : Nat → Except Unit (String × String)) : List PyElem :=
  let fallback : List PyElem :=
    fallback_events time_in_months positivity randT randP num_nodes
  let attempt : Except Unit (List PyElem) :=
    match gen with
    | .error e => .error e
    | .ok response_text =>
      match extract_json_str response_text with
      | none => .error ()
      | some json_str =>
        match loads json_str with
        | .error e => .error e
        | .ok events =>
          if num_nodes ≤ events.length then
            decorate_all imageRes (events.take num_nodes).enum
          else
            .error ()
  match attempt with
  | .ok evs => evs
  | .error _ => fallback

/-! ## `generate_event_image` (src/backend/adk/adk.py lines 564-766) -/

/-- The inline image payload found in the generator stream; `ext` is
`mimetypes.guess_extension(mime_type) or ".png"`, supplied by the
environment. -/
structure ImgInline where
  mime : String
  ext : String
deriving DecidableEq, Repr

/-- Outcomes of the external steps of one `generate_event_image` call:
whether `GEMINI_API_KEY` is set, the streaming generation call (an
exception, no inline payload, or an inline payload), the MinIO upload
(`False` for an `S3Error`), and the presign call used for the signed URL. -/
structure ImgEnv where
  hasApiKey : Bool
  stream : Except Unit (Option ImgInline)
  uploadOk : Bool
  presign : Except Unit String
deriving Repr

/-- Embedding of `get_permanent_image_url`: the presigned URL, or `""` when
the presign call raises `S3Error`. -/
def get_permanent_image_url (presign : Except Unit String) : String :=
  match presign with
  | .ok url => url
  | .error _ => ""

/-- `safe_event_name`: spaces and slashes to hyphens, lowercased. -/
def safe_event_name (event_name : String) : String :=
  ((event_name.replace " " "-").replace "/" "-").toLower

/-- Embedding of `generate_event_image`.  Returns the
`(image_filename, signed_url)` pair; every failure of the claimed kinds -
missing API key, generator exception (caught by the enclosing
`except Exception`), a stream that ends with no inline payload, an upload
`S3Error` - produces `("", "")`. -/
def generate_event_image (env : ImgEnv) (user_id event_name : String) :
    String × String :=
  if env.hasApiKey then
    match env.stream with
    | .error _ => ("", "")
    | .ok none => ("", "")
    | .ok (some inline) =>
      let image_filename := safe_event_name event_name ++ "-" ++ user_id ++ inline.ext
      if env.uploadOk then (image_filename, get_permanent_image_url env.presign)
      else ("", "")
  else ("", "")

/-! ## `add_node` (src/backend/main.py lines 345-457) -/

/-- The id-collision loop of `add_node`
(`while any(node.id == readable_id for node in return_nodes): readable_id =
f"{base_id} {counter}"; counter += 1`), with fuel for termination;
`resolveId` supplies one more unit of fuel than there are already-assigned
ids, which always suffices. -/
def resolveIdAux (existing : List String) (base : String) :
    String → Nat → Nat → String
  | cur, _, 0 => cur
  | cur, counter, fuel + 1 =>
    if cur ∈ existing then
      resolveIdAux existing base (base ++ " " ++ natStr counter) (counter + 1) fuel
    else cur

/-- The unique readable id assigned to a candidate: the derived base id,
numerically suffixed until it collides with no id assigned earlier in the
batch. -/
def resolveId (existing : List String) (base : String) : String :=
  resolveIdAux existing base base 1 (existing.length + 1)

/-- The candidate id the collision loop examines at step `j`: the base id
itself first, then `"{base} {j}"`. -/
def resolve_cand (base : String) : Nat → String
  | 0 => base
  | j + 1 => base ++ " " ++ natStr (j + 1)

/-- The base id derived from a candidate name: the first at most three
whitespace-separated words, rejoined with single spaces
(`" ".join(ai_content["name"].split()[:3])`). -/
def readable_base_id (name : String) : String :=
  joinSpace ((pySplitWhitespace name).take 3)

/-- A row of the node table / the Python `Node` model, with the fields the
pipeline writes.  `created_at` abstracts the wall-clock timestamp. -/
structure NodeRec where
  id : String
  name : String
  title : String
  type : String
  image_name : String
  image_url : String
  timeInMonths : Int
  description : String
  created_at : Nat
  user_id : String
deriving DecidableEq, Repr

/-- A row of the link table / the Python `Link` model. -/
structure LinkRec where
  id : String
  source : String
  target : String
  timeInMonths : Int
  userId : String
deriving DecidableEq, Repr

/-- The fields of `AddNodeRequest` used by the persistence phase.  An empty
`clicked_node_id` models the Python-falsy case (no clicked node). -/
structure AddNodeRequest where
  user_id : String
  clicked_node_id : String
  time_in_months : Int
  positivity : Int
  num_nodes : Nat
  previous_nodes : List NodeRec
deriving DecidableEq, Repr

/-- The non-id values read from a candidate dict by one `add_node`
iteration: the defaulted `event_time_months` / `event_positivity` (via
`.get`, falling back to the request value or a fresh draw) and the plainly
indexed `description`, `type`, `image_name`/`image_url` (via `.get` with
default `""`) and `title`. -/
structure NodeFields where
  event_time_months : Int
  event_positivity : Int
  description : String
  type : String
  image_name : String
  image_url : String
  title : String
deriving DecidableEq, Repr

/-- Extraction of the remaining candidate fields (source lines 392-396): a
missing `time_months` or `positivity_score` falls back to the request value
(or a fresh `randint` draw), while `ai_content["description"]`,
`ai_content["type"]` and `ai_content["title"]` raise `KeyError` when
missing.  The computed `event_positivity` is carried along but `Node(...)`
never uses it. -/
def build_node_fields (req : AddNodeRequest) (randT randP : Nat → Int) (i : Nat)
    (ai_content : PyElem) : Except Unit NodeFields := do
  let event_time_months ←
    match ai_content with
    | .other => .error ()
    | .dict d =>
      match getKey? d "time_months" with
      | some v => asInt v
      | none => .ok (if req.time_in_months > 0 then req.time_in_months else randT i)
  let event_positivity ←
    match ai_content with
    | .other => (.error () : Except Unit Int)
    | .dict d =>
      match getKey? d "positivity_score" with
      | some v => asInt v
      | none => .ok (if req.positivity ≥ 0 then req.positivity else randP i)
  let descS ← elemGet ai_content "description" >>= asStr
  let typeS ← elemGet ai_content "type" >>= asStr
  let imageNameS ← elemGetD ai_content "image_name" (.vStr "") >>= asStr
  let imageUrlS ← elemGetD ai_content "image_url" (.vStr "") >>= asStr
  let titleS ← elemGet ai_content "title" >>= asStr
  .ok { event_time_months := event_time_months,
        event_positivity := event_positivity, description := descS,
        type := typeS, image_name := imageNameS, image_url := imageUrlS,
        title := titleS }

/-- One iteration of the `for i, ai_content in enumerate(ai_events)` loop of
`add_node`: derive the readable id from the first at most three words of
`ai_content["name"]` and suffix it against the ids already assigned in this
batch; then read the remaining fields via `build_node_fields` and construct
the `Node`. -/
def build_node (req : AddNodeRequest) (randT randP : Nat → Int) (created_at : Nat)
    (return_nodes : List NodeRec) (i : Nat) (ai_content : PyElem) :
    Except Unit NodeRec := do
  let nameS ← elemGet ai_content "name" >>= asStr
  let readable_id := resolveId (return_nodes.map (fun n => n.id)) (readable_base_id nameS)
  let f ← build_node_fields req randT randP i ai_content
  .ok { id := readable_id, name := nameS, title := f.title, type := f.type,
        image_name := f.image_name, image_url := f.image_url,
        timeInMonths := f.event_time_months, description := f.description,
        created_at := created_at, user_id := req.user_id }

/-- The whole candidate loop of `add_node`, threading the `return_nodes`
accumulator that the id-collision check consults. -/
def build_return_nodes (req : AddNodeRequest) (randT randP : Nat → Int)
    (created_at : Nat) : Nat → List NodeRec → List PyElem →
    Except Unit (List NodeRec)
  | _, acc, [] => .ok acc
  | i, acc, ev :: rest => do
    let n ← build_node req randT randP created_at acc i ev
    build_return_nodes req randT randP created_at (i + 1) (acc ++ [n]) rest

/-- The two per-user tables touched by `add_node`. -/
structure DB where
  nodes : List NodeRec
  links : List LinkRec
deriving DecidableEq, Repr

/-- `INSERT INTO node ... ON CONFLICT (id) DO NOTHING`: a no-op when a row
with the same primary-key id already exists. -/
def insert_node_if_absent (db : DB) (n : NodeRec) : DB :=
  if db.nodes.any (fun m => m.id == n.id) then db
  else { db with nodes := db.nodes ++ [n] }

/-- `INSERT INTO link ... ON CONFLICT (id) DO NOTHING`. -/
def insert_link_if_absent (db : DB) (l : LinkRec) : DB :=
  if db.links.any (fun m => m.id == l.id) then db
  else { db with links := db.links ++ [l] }

/-- `link_id = f"{clicked_node.id}-{new_node.id}-{request.user_id}"`. -/
def link_id (source target userId : String) : String :=
  source ++ "-" ++ target ++ "-" ++ userId

/-- The minimal clicked-node stand-in `add_node` fabricates when the clicked
id is not among `previous_nodes`. -/
def placeholder_clicked_node (req : AddNodeRequest) (created_at : Nat) : NodeRec :=
  { id := req.clicked_node_id, name := req.clicked_node_id,
    description := "Life event: " ++ req.clicked_node_id, type := "life-event",
    image_name := "", image_url := "", timeInMonths := 1,
    title := req.clicked_node_id, created_at := created_at,
    user_id := req.user_id }

/-- The clicked node used for link construction: the matching entry of
`previous_nodes`, or the fabricated placeholder. -/
def clicked_node_of (req : AddNodeRequest) (created_at : Nat) : NodeRec :=
  match req.previous_nodes.find? (fun n => n.id == req.clicked_node_id) with
  | some n => n
  | none => placeholder_clicked_node req created_at

/-- The persistence phase of `add_node`, applied to the event list returned
by the synthesizer: build `return_nodes` (an error anywhere aborts the
request), upsert the clicked node and build one link per new node with
`timeInMonths` taken from the request, then insert all nodes and links with
id-conflict no-ops, and answer with `return_nodes` - the freshly
constructed records, not the rows actually stored. -/
def add_node_persist (req : AddNodeRequest) (randT randP : Nat → Int)
    (created_at : Nat) (ai_events : List PyElem) (db : DB) :
    Except Unit (List NodeRec × DB) := do
  let return_nodes ← build_return_nodes req randT randP created_at 0 [] ai_events
  let step :=
    if req.clicked_node_id ≠ "" then
      let clicked := clicked_node_of req created_at
      (insert_node_if_absent db clicked,
       return_nodes.map (fun n =>
         ({ id := link_id clicked.id n.id req.user_id, source := clicked.id,
            target := n.id, timeInMonths := req.time_in_months,
            userId := req.user_id } : LinkRec)))
    else (db, ([] : List LinkRec))
  let db2 := return_nodes.foldl insert_node_if_absent step.1
  let db3 := step.2.foldl insert_link_if_absent db2
  .ok (return_nodes, db3)

/-! ## Theorems -/

/-! ### C7: cumulative elapsed months along the highlighted path -/

/-- C7: `calculate_cumulative_time` computes exactly the specified sum: over
each consecutive pair `(earlier, later)` of the highlighted path (ordered
root-ward to clicked node), the `timeInMonths` of the link whose source is
the later node and whose target is the earlier node; a consecutive pair
with no such link contributes nothing. -/
theorem calculate_cumulative_time_eq_spec (path : List String)
    (all_links : List LinkDict) :
    calculate_cumulative_time path all_links = cumulative_time_spec path all_links := by
  induction path with
  | nil => rfl
  | cons a rest ih =>
    cases rest with
    | nil => rfl
    | cons b rest2 =>
      simp only [cumulative_time_spec, List.tail_cons, List.zip_cons_cons,
        List.map_cons, List.sum_cons] at ih ⊢
      rw [calculate_cumulative_time, ih]

/-! ### C8: aging and mortality bands -/

/-- Comparisons of the exact `years = months / 12` against a band threshold
reduce to integer comparisons on months. -/
theorem div12_lt_iff (m : Int) (c : Rat) (k : Int) (hk : c * 12 = (k : Rat)) :
    ((m : Rat) / 12 < c) ↔ m < k := by
  rw [div_lt_iff₀ (by norm_num : (0 : Rat) < 12), hk, Int.cast_lt]

/-- C8: for every non-negative elapsed-months value, the aging descriptor
follows the six bands with thresholds at 2, 5, 10, 20 and 30 elapsed years
(24, 60, 120, 240, 360 months), and the mortality descriptor is empty under
30 elapsed years, the soft health note for 30 to 50 years, and the explicit
end-of-life framing from 50 years on.  Instantiated at 36 months this gives
the subtle-maturity band and an empty mortality descriptor. -/
theorem aging_mortality_bands (m : Int) (_h0 : 0 ≤ m) :
    ((m < 24 → get_aging_context m =
        "The person should look the same age as in the reference image.") ∧
     (24 ≤ m ∧ m < 60 → get_aging_context m =
        "The person should look slightly older, with subtle signs of maturity.") ∧
     (60 ≤ m ∧ m < 120 → get_aging_context m =
        "The person should look noticeably older, showing clear signs of aging and maturity.") ∧
     (120 ≤ m ∧ m < 240 → get_aging_context m =
        "The person should look significantly older, with visible aging, possible gray hair, and mature features.") ∧
     (240 ≤ m ∧ m < 360 → get_aging_context m =
        "The person should look much older, with considerable aging, gray/white hair, and mature/elderly features.") ∧
     (360 ≤ m → get_aging_context m =
        "The person should look elderly, with significant aging, white hair, wrinkles, and the wisdom of advanced age.")) ∧
    ((m < 360 → get_mortality_context m = "") ∧
     (360 ≤ m ∧ m < 600 → get_mortality_context m =
        "Consider that significant time has passed. Health and mortality may become relevant considerations.") ∧
     (600 ≤ m → get_mortality_context m =
        "With the substantial time that has passed, consider life\x27s natural progression including potential health challenges, retirement, or end-of-life considerations.")) := by
  have i2 := div12_lt_iff m 2 24 (by norm_num)
  have i5 := div12_lt_iff m 5 60 (by norm_num)
  have i10 := div12_lt_iff m 10 120 (by norm_num)
  have i20 := div12_lt_iff m 20 240 (by norm_num)
  have i30 := div12_lt_iff m 30 360 (by norm_num)
  have i50 := div12_lt_iff m 50 600 (by norm_num)
  simp only [get_aging_context, get_mortality_context, i2, i5, i10, i20, i30, i50]
  refine ⟨⟨?_, ?_, ?_, ?_, ?_, ?_⟩, ?_, ?_, ?_⟩ <;>
    · intro h
      split_ifs <;> first | rfl | omega

/-- Witness for C8 at 36 elapsed months: the subtle-maturity aging band and
the empty mortality descriptor. -/
theorem aging_mortality_bands_witness :
    get_aging_context 36 =
      "The person should look slightly older, with subtle signs of maturity." ∧
    get_mortality_context 36 = "" :=
  ⟨(aging_mortality_bands 36 (by decide)).1.2.1 (by decide),
   (aging_mortality_bands 36 (by decide)).2.1 (by decide)⟩

/-! ### C1: reachability-based cascade delete -/

/-- Membership in the successor list used by the delete DFS. -/
theorem mem_delSuccs (all_links : List (String × String)) (node_id cur x : String) :
    x ∈ delSuccs all_links node_id cur ↔ (cur, x) ∈ all_links ∧ x ≠ node_id := by
  simp only [delSuccs, List.mem_map, List.mem_filter, Bool.and_eq_true, beq_iff_eq,
    bne_iff_ne]
  constructor
  · rintro ⟨⟨a, b⟩, ⟨he, h1, h2⟩, rfl⟩
    subst h1
    exact ⟨he, h2⟩
  · rintro ⟨hm, hne⟩
    exact ⟨(cur, x), ⟨hm, rfl, hne⟩, rfl⟩

/-- The visited accumulator only grows. -/
theorem dfsAux_mono (all_links : List (String × String)) (node_id : String) :
    ∀ fuel visited stack x, x ∈ visited →
      x ∈ dfsAux all_links node_id fuel visited stack := by
  intro fuel
  induction fuel with
  | zero =>
    intro visited stack x hx
    cases stack <;> simpa [dfsAux] using hx
  | succ fuel ih =>
    intro visited stack x hx
    cases stack with
    | nil => simpa [dfsAux] using hx
    | cons cur rest =>
      rw [dfsAux]
      split_ifs with hc
      · exact ih visited rest x hx
      · exact ih (cur :: visited) _ x (List.mem_cons_of_mem cur hx)

/-- Soundness of the delete DFS: every visited node satisfies any property
holding on the initial visited set and worklist and closed under the
followed edges. -/
theorem dfsAux_sound (all_links : List (String × String)) (node_id : String)
    (P : String → Prop)
    (hP : ∀ b c, P b → (b, c) ∈ all_links → c ≠ node_id → P c) :
    ∀ fuel visited stack, (∀ v ∈ visited, P v) → (∀ s ∈ stack, P s ∨ s = node_id) →
      ∀ x ∈ dfsAux all_links node_id fuel visited stack, P x := by
  intro fuel
  induction fuel with
  | zero =>
    intro visited stack hv _hs x hx
    cases stack with
    | nil => exact hv x (by simpa [dfsAux] using hx)
    | cons cur rest => exact hv x (by simpa [dfsAux] using hx)
  | succ fuel ih =>
    intro visited stack hv hs x hx
    cases stack with
    | nil => exact hv x (by simpa [dfsAux] using hx)
    | cons cur rest =>
      rw [dfsAux] at hx
      split_ifs at hx with hc
      · exact ih visited rest hv (fun s hsm => hs s (List.mem_cons_of_mem cur hsm)) x hx
      · push_neg at hc
        have hcur : P cur := by
          rcases hs cur (List.mem_cons_self cur rest) with h | h
          · exact h
          · exact absurd h hc.2
        refine ih (cur :: visited) _ ?_ ?_ x hx
        · intro v hvm
          rcases List.mem_cons.mp hvm with rfl | hvm
          · exact hcur
          · exact hv v hvm
        · intro s hsm
          rcases List.mem_append.mp hsm with hsm | hsm
          · rcases (mem_delSuccs all_links node_id cur s).mp hsm with ⟨he, hne⟩
            exact Or.inl (hP cur s hcur he hne)
          · exact hs s (List.mem_cons_of_mem cur hsm)

/-- Marking an unvisited worklist element strictly shrinks the count of
unvisited candidate nodes. -/
theorem filter_not_mem_cons_length_lt (cands visited : List String) (cur : String)
    (hc : cur ∈ cands) (hv : cur ∉ visited) :
    (cands.filter (fun x => decide (x ∉ cur :: visited))).length <
      (cands.filter (fun x => decide (x ∉ visited))).length := by
  have hsub : List.Sublist (cands.filter (fun x => decide (x ∉ cur :: visited)))
      (cands.filter (fun x => decide (x ∉ visited))) := by
    refine List.monotone_filter_right cands ?_
    intro a ha
    simp only [decide_eq_true_eq, List.mem_cons, not_or] at ha ⊢
    exact ha.2
  refine lt_of_le_of_ne hsub.length_le (fun heq => ?_)
  have heqlist := hsub.eq_of_length heq
  have hq : cur ∈ cands.filter (fun x => decide (x ∉ visited)) :=
    List.mem_filter.mpr ⟨hc, by simpa using hv⟩
  rw [← heqlist] at hq
  have := (List.mem_filter.mp hq).2
  simp at this

/-- Completeness of the delete DFS, given enough fuel: every worklist
element other than the deleted node ends up visited, and the final visited
set is closed under the followed edges.  `cands` is any list containing
every link target; the measure counts unvisited candidates. -/
theorem dfsAux_complete (all_links : List (String × String)) (node_id : String)
    (cands : List String) (hcands : ∀ e ∈ all_links, e.2 ∈ cands) :
    ∀ fuel visited stack,
      (cands.filter (fun x => decide (x ∉ visited))).length * (all_links.length + 1)
          + stack.length ≤ fuel →
      (∀ s ∈ stack, s ∈ cands) →
      (∀ v ∈ visited, ∀ w, (v, w) ∈ all_links → w ≠ node_id →
        w ∈ visited ∨ w ∈ stack) →
      (∀ s ∈ stack, s ∈ dfsAux all_links node_id fuel visited stack ∨ s = node_id) ∧
      (∀ v ∈ dfsAux all_links node_id fuel visited stack, ∀ w, (v, w) ∈ all_links →
        w ≠ node_id → w ∈ dfsAux all_links node_id fuel visited stack) := by
  intro fuel
  induction fuel with
  | zero =>
    intro visited stack hfuel _hsc hinv
    have hstack : stack = [] := List.eq_nil_of_length_eq_zero (by omega)
    subst hstack
    simp only [dfsAux]
    refine ⟨fun s hs => absurd hs (List.not_mem_nil s), ?_⟩
    intro v hv w hw hwne
    rcases hinv v hv w hw hwne with h | h
    · exact h
    · exact absurd h (List.not_mem_nil w)
  | succ fuel ih =>
    intro visited stack hfuel hsc hinv
    cases stack with
    | nil =>
      simp only [dfsAux]
      refine ⟨fun s hs => absurd hs (List.not_mem_nil s), ?_⟩
      intro v hv w hw hwne
      rcases hinv v hv w hw hwne with h | h
      · exact h
      · exact absurd h (List.not_mem_nil w)
    | cons cur rest =>
      by_cases hc : cur ∈ visited ∨ cur = node_id
      · have hre : dfsAux all_links node_id (fuel + 1) visited (cur :: rest)
            = dfsAux all_links node_id fuel visited rest := by
          rw [dfsAux, if_pos hc]
        have hfuel2 : (cands.filter (fun x => decide (x ∉ visited))).length
            * (all_links.length + 1) + rest.length ≤ fuel := by
          have : (cands.filter (fun x => decide (x ∉ visited))).length
              * (all_links.length + 1) + rest.length + 1 ≤ fuel + 1 := by
            simpa [List.length_cons, ← add_assoc] using hfuel
          omega
        have hinv2 : ∀ v ∈ visited, ∀ w, (v, w) ∈ all_links → w ≠ node_id →
            w ∈ visited ∨ w ∈ rest := by
          intro v hv w hw hwne
          rcases hinv v hv w hw hwne with h | h
          · exact Or.inl h
          · rcases List.mem_cons.mp h with rfl | h2
            · rcases hc with h3 | h3
              · exact Or.inl h3
              · exact absurd h3 hwne
            · exact Or.inr h2
        obtain ⟨hstk, hcl⟩ := ih visited rest hfuel2
          (fun s hs => hsc s (List.mem_cons_of_mem cur hs)) hinv2
        rw [hre]
        refine ⟨?_, hcl⟩
        intro s hs
        rcases List.mem_cons.mp hs with rfl | hs2
        · rcases hc with h3 | h3
          · exact Or.inl (dfsAux_mono all_links node_id fuel visited rest s h3)
          · exact Or.inr h3
        · exact hstk s hs2
      · push_neg at hc
        have hre : dfsAux all_links node_id (fuel + 1) visited (cur :: rest)
            = dfsAux all_links node_id fuel (cur :: visited)
                (delSuccs all_links node_id cur ++ rest) := by
          rw [dfsAux, if_neg]
          simpa using hc
        have hcur_c : cur ∈ cands := hsc cur (List.mem_cons_self cur rest)
        have hlt := filter_not_mem_cons_length_lt cands visited cur hcur_c hc.1
        have hslen : (delSuccs all_links node_id cur).length ≤ all_links.length := by
          simpa [delSuccs, List.length_map] using
            List.length_filter_le (fun e => e.1 == cur && e.2 != node_id) all_links
        have hmul : (cands.filter (fun x => decide (x ∉ cur :: visited))).length
              * (all_links.length + 1) + (all_links.length + 1)
            ≤ (cands.filter (fun x => decide (x ∉ visited))).length
              * (all_links.length + 1) := by
          rw [← Nat.succ_mul]
          exact Nat.mul_le_mul_right (all_links.length + 1) hlt
        have hfuel2 : (cands.filter (fun x => decide (x ∉ cur :: visited))).length
            * (all_links.length + 1)
            + (delSuccs all_links node_id cur ++ rest).length ≤ fuel := by
          rw [List.length_append]
          have hfl : (cands.filter (fun x => decide (x ∉ visited))).length
              * (all_links.length + 1) + rest.length + 1 ≤ fuel + 1 := by
            simpa [List.length_cons, ← add_assoc] using hfuel
          omega
        have hsc2 : ∀ s ∈ delSuccs all_links node_id cur ++ rest, s ∈ cands := by
          intro s hs
          rcases List.mem_append.mp hs with hs2 | hs2
          · rcases (mem_delSuccs all_links node_id cur s).mp hs2 with ⟨he, _⟩
            exact hcands (cur, s) he
          · exact hsc s (List.mem_cons_of_mem cur hs2)
        have hinv2 : ∀ v ∈ cur :: visited, ∀ w, (v, w) ∈ all_links → w ≠ node_id →
            w ∈ cur :: visited ∨ w ∈ delSuccs all_links node_id cur ++ rest := by
          intro v hv w hw hwne
          rcases List.mem_cons.mp hv with rfl | hv2
          · exact Or.inr (List.mem_append.mpr
              (Or.inl ((mem_delSuccs all_links node_id v w).mpr ⟨hw, hwne⟩)))
          · rcases hinv v hv2 w hw hwne with h | h
            · exact Or.inl (List.mem_cons_of_mem cur h)
            · rcases List.mem_cons.mp h with rfl | h2
              · exact Or.inl (List.mem_cons_self w visited)
              · exact Or.inr (List.mem_append.mpr (Or.inr h2))
        obtain ⟨hstk, hcl⟩ := ih (cur :: visited)
          (delSuccs all_links node_id cur ++ rest) hfuel2 hsc2 hinv2
        rw [hre]
        refine ⟨?_, hcl⟩
        intro s hs
        rcases List.mem_cons.mp hs with rfl | hs2
        · exact Or.inl (dfsAux_mono all_links node_id fuel (s :: visited) _ s
            (List.mem_cons_self s visited))
        · exact hstk s (List.mem_append.mpr (Or.inr hs2))

/-- Any node reached in the graph with edges into the deleted node removed
is not the deleted node. -/
theorem reach_filter_ne (all_links : List (String × String)) (node_id root x : String)
    (hroot : root ≠ node_id)
    (h : Reach (all_links.filter (fun e => decide (e.2 ≠ node_id))) root x) :
    x ≠ node_id := by
  induction h with
  | refl => exact hroot
  | step _hb he _ih =>
    have hm := List.mem_filter.mp he
    simpa using hm.2

/-- The delete DFS computes exactly forward reachability from the root in
the graph with every edge into the deleted node removed. -/
theorem dfs_from_now_iff (all_links : List (String × String)) (node_id now_node : String)
    (h : now_node ≠ node_id) (x : String) :
    x ∈ dfs_from_now all_links node_id now_node ↔
      Reach (all_links.filter (fun e => decide (e.2 ≠ node_id))) now_node x := by
  constructor
  · intro hx
    refine dfsAux_sound all_links node_id
      (Reach (all_links.filter (fun e => decide (e.2 ≠ node_id))) now_node)
      ?_ _ [] [now_node] (by simp) ?_ x hx
    · intro b c hb he hne
      exact .step hb (List.mem_filter.mpr ⟨he, by simpa using hne⟩)
    · intro s hs
      rcases List.mem_cons.mp hs with rfl | hs2
      · exact Or.inl .refl
      · exact absurd hs2 (List.not_mem_nil s)
  · intro hx
    have hcands : ∀ e ∈ all_links, e.2 ∈ now_node :: all_links.map (fun e => e.2) :=
      fun e he => List.mem_cons_of_mem now_node (List.mem_map_of_mem _ he)
    have hfuel : ((now_node :: all_links.map (fun e => e.2)).filter
          (fun x => decide (x ∉ ([] : List String)))).length * (all_links.length + 1)
          + [now_node].length
        ≤ (all_links.length + 1) * (all_links.length + 1) + 1 := by
      have hfe : (now_node :: all_links.map (fun e => e.2)).filter
          (fun x => decide (x ∉ ([] : List String)))
          = now_node :: all_links.map (fun e => e.2) := by
        simp
      rw [hfe]
      simp [List.length_map]
    obtain ⟨hstk, hcl⟩ := dfsAux_complete all_links node_id
      (now_node :: all_links.map (fun e => e.2)) hcands
      ((all_links.length + 1) * (all_links.length + 1) + 1) [] [now_node] hfuel
      (fun s hs => by
        rcases List.mem_cons.mp hs with rfl | hs2
        · exact List.mem_cons_self s _
        · exact absurd hs2 (List.not_mem_nil s))
      (fun v hv => absurd hv (List.not_mem_nil v))
    have hroot_in : now_node ∈ dfs_from_now all_links node_id now_node := by
      rcases hstk now_node (List.mem_cons_self now_node []) with h2 | h2
      · exact h2
      · exact absurd h2 h
    induction hx with
    | refl => exact hroot_in
    | step hb he ih =>
      have hm := List.mem_filter.mp he
      exact hcl _ ih _ hm.1 (by simpa using hm.2)

/-- The root search of `delete_node` finds the unique root-patterned node. -/
theorem findNowNode_eq_root (nodes : List String) (root : String)
    (hmem : root ∈ nodes) (hpat : isRootId root = true)
    (huniq : ∀ n ∈ nodes, isRootId n = true → n = root) :
    findNowNode nodes = some root := by
  have hsome : (nodes.find? (fun n => isRootId n)).isSome :=
    List.find?_isSome.mpr ⟨root, hmem, hpat⟩
  obtain ⟨y, hy⟩ := Option.isSome_iff_exists.mp hsome
  have hy_mem := List.mem_of_find?_eq_some hy
  have hy_pat := List.find?_some hy
  rw [findNowNode, hy, huniq y hy_mem hy_pat]

/-- C1: for a well-formed user graph (a unique root-patterned node, links
between user nodes) and an existing non-root node `t`, `delete_node`
succeeds, leaving `stateAfterDelete`; the surviving node set is exactly the
set of nodes reachable from the root over the surviving links, and `t` is
gone. -/
theorem delete_node_reachability (s : GraphState) (t root : String)
    (hroot_mem : root ∈ s.nodes) (hroot_pat : isRootId root = true)
    (huniq : ∀ n ∈ s.nodes, isRootId n = true → n = root)
    (ht_mem : t ∈ s.nodes) (ht_pat : isRootId t = false)
    (hclosed : ∀ e ∈ s.links, e.1 ∈ s.nodes ∧ e.2 ∈ s.nodes) :
    (∃ r : DeleteReport, delete_node s t = (.ok r, stateAfterDelete s t)) ∧
    (∀ x, x ∈ (stateAfterDelete s t).nodes ↔
      Reach (stateAfterDelete s t).links root x) ∧
    t ∉ (stateAfterDelete s t).nodes := by
  have hrt : root ≠ t := by
    intro h
    rw [h, ht_pat] at hroot_pat
    simp at hroot_pat
  have hfind := findNowNode_eq_root s.nodes root hroot_mem hroot_pat huniq
  have hreach_def : reachable_nodes s t = dfs_from_now s.links t root := by
    rw [reachable_nodes, hfind]
  have hdfs := dfs_from_now_iff s.links t root hrt
  have hD : ∀ x, x ∈ nodes_to_delete s t ↔
      (x = t ∨ (x ∈ s.nodes ∧ x ∉ reachable_nodes s t ∧ x ≠ t)) := by
    intro x
    simp [nodes_to_delete, unreachable_nodes, List.mem_filter]
  have hnotD : ∀ x, x ∈ dfs_from_now s.links t root → x ∉ nodes_to_delete s t := by
    intro x hx hmem
    have hxt : x ≠ t :=
      reach_filter_ne s.links t root x hrt ((hdfs x).mp hx)
    rcases (hD x).mp hmem with h | ⟨_, hnr, _⟩
    · exact hxt h
    · exact hnr (hreach_def ▸ hx)
  have hmem_nodes : ∀ x, x ∈ (stateAfterDelete s t).nodes ↔
      (x ∈ s.nodes ∧ x ∉ nodes_to_delete s t) := by
    intro x
    simp [stateAfterDelete, List.mem_filter]
  have hmem_links : ∀ e, e ∈ (stateAfterDelete s t).links ↔
      (e ∈ s.links ∧ e.1 ∉ nodes_to_delete s t ∧ e.2 ∉ nodes_to_delete s t) := by
    intro e
    simp [stateAfterDelete, List.mem_filter]
  have hlift : ∀ x, Reach (s.links.filter (fun e => decide (e.2 ≠ t))) root x →
      Reach (stateAfterDelete s t).links root x := by
    intro x hx
    induction hx with
    | refl => exact .refl
    | step hb he ih =>
      rename_i b c
      have hbc := List.mem_filter.mp he
      have hct : c ≠ t := by simpa using hbc.2
      have hbR : b ∈ dfs_from_now s.links t root := (hdfs b).mpr hb
      have hcR : c ∈ dfs_from_now s.links t root := (hdfs c).mpr (.step hb he)
      exact .step ih ((hmem_links (b, c)).mpr ⟨hbc.1, hnotD b hbR, hnotD c hcR⟩)
  refine ⟨⟨{ deleted_node := t, cascade_deleted := unreachable_nodes s t,
             total_deleted := (nodes_to_delete s t).length,
             remaining_nodes := s.nodes.length - (nodes_to_delete s t).length },
           by simp [delete_node, delete_node_inner, ht_pat, ht_mem]⟩, ?_, ?_⟩
  · intro x
    constructor
    · intro hx
      obtain ⟨hxn, hxD⟩ := (hmem_nodes x).mp hx
      have hxR : x ∈ reachable_nodes s t := by
        by_contra hxR
        by_cases hxt : x = t
        · exact hxD ((hD x).mpr (Or.inl hxt))
        · exact hxD ((hD x).mpr (Or.inr ⟨hxn, hxR, hxt⟩))
      exact hlift x ((hdfs x).mp (hreach_def ▸ hxR))
    · intro hx
      induction hx with
      | refl =>
        refine (hmem_nodes root).mpr ⟨hroot_mem, hnotD root ?_⟩
        exact (hdfs root).mpr .refl
      | step hb he ih =>
        rename_i b c
        have hm := (hmem_links (b, c)).mp he
        exact (hmem_nodes c).mpr ⟨(hclosed (b, c) hm.1).2, hm.2.2⟩
  · intro hmem
    exact ((hmem_nodes t).mp hmem).2 ((hD t).mpr (Or.inl rfl))

/-- Witness for C1 on the spec example graph `Now → A → B`, `Now → C`
deleting `A`: the delete succeeds and the survivors are exactly the nodes
reachable from `Now` over the surviving links, with `A` gone. -/
theorem delete_node_reachability_witness :
    (∃ r : DeleteReport,
      delete_node ⟨["Now", "A", "B", "C"], [("Now", "A"), ("A", "B"), ("Now", "C")]⟩ "A"
        = (.ok r, stateAfterDelete
            ⟨["Now", "A", "B", "C"], [("Now", "A"), ("A", "B"), ("Now", "C")]⟩ "A")) ∧
    (∀ x, x ∈ (stateAfterDelete
        ⟨["Now", "A", "B", "C"], [("Now", "A"), ("A", "B"), ("Now", "C")]⟩ "A").nodes ↔
      Reach (stateAfterDelete
        ⟨["Now", "A", "B", "C"], [("Now", "A"), ("A", "B"), ("Now", "C")]⟩ "A").links
        "Now" x) ∧
    "A" ∉ (stateAfterDelete
      ⟨["Now", "A", "B", "C"], [("Now", "A"), ("A", "B"), ("Now", "C")]⟩ "A").nodes :=
  delete_node_reachability
    ⟨["Now", "A", "B", "C"], [("Now", "A"), ("A", "B"), ("Now", "C")]⟩ "A" "Now"
    (by decide) (by decide) (by decide) (by decide) (by decide) (by decide)

/-! ### C3: rejection of root / missing-node deletes -/

/-- C3 (actual code behaviour): deleting the root-patterned node or a node
that does not exist mutates nothing - the state comes back unchanged - but
the reported status is 500, not a 4xx: the `HTTPException(400)` and
`HTTPException(404)` rejections are raised inside the `try` block whose
blanket `except Exception` handler re-raises every exception as
`HTTPException(500, "Failed to delete node: ...")`. -/
theorem delete_node_rejection_500 (s : GraphState) (node_id : String)
    (h : isRootId node_id = true ∨ node_id ∉ s.nodes) :
    delete_node s node_id = (.error 500, s) := by
  rcases h with h | h
  · simp [delete_node, delete_node_inner, h]
  · by_cases hr : isRootId node_id
    · simp [delete_node, delete_node_inner, hr]
    · simp [delete_node, delete_node_inner, hr, h]

/-- Witness for C3 at a concrete graph: deleting the per-user root
`"Now-u1"` answers 500 with the graph unchanged (and so does deleting the
absent node `"Z"`). -/
theorem delete_node_rejection_500_witness :
    delete_node ⟨["Now-u1", "A"], [("Now-u1", "A")]⟩ "Now-u1"
      = (.error 500, ⟨["Now-u1", "A"], [("Now-u1", "A")]⟩) ∧
    delete_node ⟨["Now-u1", "A"], [("Now-u1", "A")]⟩ "Z"
      = (.error 500, ⟨["Now-u1", "A"], [("Now-u1", "A")]⟩) :=
  ⟨delete_node_rejection_500 ⟨["Now-u1", "A"], [("Now-u1", "A")]⟩ "Now-u1"
      (Or.inl (by decide)),
   delete_node_rejection_500 ⟨["Now-u1", "A"], [("Now-u1", "A")]⟩ "Z"
      (Or.inr (by decide))⟩

/-! ### C9: a graph without a root node loses everything on any delete -/

/-- C9: when no node of the user matches the reserved root pattern, the
root search comes back empty, `reachable_nodes` is empty, and deleting any
existing node removes every node and every link of that user. -/
theorem delete_node_no_root_deletes_all (s : GraphState) (t : String)
    (hnoroot : ∀ n ∈ s.nodes, isRootId n = false)
    (ht : t ∈ s.nodes)
    (hclosed : ∀ e ∈ s.links, e.1 ∈ s.nodes ∧ e.2 ∈ s.nodes) :
    reachable_nodes s t = [] ∧
    ∃ r : DeleteReport, delete_node s t = (.ok r, ⟨[], []⟩) := by
  have hfind : findNowNode s.nodes = none :=
    List.find?_eq_none.mpr (fun x hx => by simp [hnoroot x hx])
  have hreach : reachable_nodes s t = [] := by
    rw [reachable_nodes, hfind]
  have ht_pat : isRootId t = false := hnoroot t ht
  have hallD : ∀ n ∈ s.nodes, n ∈ nodes_to_delete s t := by
    intro n hn
    by_cases hnt : n = t
    · exact hnt ▸ List.mem_cons_self t (unreachable_nodes s t)
    · exact List.mem_cons_of_mem t
        (List.mem_filter.mpr ⟨hn, by simp [hreach, hnt]⟩)
  have hstate : stateAfterDelete s t = ⟨[], []⟩ := by
    rw [stateAfterDelete]
    congr 1
    · exact List.filter_eq_nil_iff.mpr (fun n hn => by simp [hallD n hn])
    · refine List.filter_eq_nil_iff.mpr (fun e he => ?_)
      simp only [decide_eq_true_eq, not_and]
      intro hcon
      exact absurd (hallD e.1 (hclosed e he).1) hcon
  have hdel : delete_node s t =
      (.ok { deleted_node := t, cascade_deleted := unreachable_nodes s t,
             total_deleted := (nodes_to_delete s t).length,
             remaining_nodes := s.nodes.length - (nodes_to_delete s t).length },
       (⟨[], []⟩ : GraphState)) := by
    simp [delete_node, delete_node_inner, ht_pat, ht, hstate]
  exact ⟨hreach, ⟨_, hdel⟩⟩

/-- Witness for C9: a two-node rootless graph loses both nodes and its link
when either node is deleted. -/
theorem delete_node_no_root_deletes_all_witness :
    reachable_nodes ⟨["A", "B"], [("A", "B")]⟩ "A" = [] ∧
    ∃ r : DeleteReport,
      delete_node ⟨["A", "B"], [("A", "B")]⟩ "A" = (.ok r, ⟨[], []⟩) :=
  delete_node_no_root_deletes_all ⟨["A", "B"], [("A", "B")]⟩ "A"
    (by decide) (by decide) (by decide)

/-! ### C2: the event synthesizer is total with deterministic fallback -/

/-- The fallback list has one placeholder per requested event. -/
theorem fallback_events_length (tim pos : Int) (rT rP : Nat → Int) (n : Nat) :
    (fallback_events tim pos rT rP n).length = n := by
  simp [fallback_events, events_config]

/-- The placeholder at index `i` of the fallback list, with its
`time_months` / `positivity_score` equal to the `events_config` entry for
event `i`. -/
theorem fallback_events_getElem (tim pos : Int) (rT rP : Nat → Int) (n i : Nat)
    (h : i < n) :
    (fallback_events tim pos rT rP n)[i]? =
      some (.dict [("name", .vStr ("Event " ++ natStr (i + 1))),
                   ("title", .vStr ("Life Event " ++ natStr (i + 1))),
                   ("description", .vStr "A significant life event."),
                   ("type", .vStr "fallback"),
                   ("time_months", .vInt (if tim > 0 then tim else rT i)),
                   ("positivity_score", .vInt (if pos ≥ 0 then pos else rP i))]) := by
  simp [fallback_events, events_config, List.getElem?_enum, List.getElem?_range, h]

/-- A successful decoration pass preserves the number of events. -/
theorem decorate_all_ok_length (imageRes : Nat → Except Unit (String × String)) :
    ∀ l out, decorate_all imageRes l = .ok out → out.length = l.length := by
  intro l
  induction l with
  | nil =>
    intro out h
    simp only [decorate_all] at h
    cases h
    rfl
  | cons p rest ih =>
    intro out h
    simp only [decorate_all] at h
    cases h1 : decorate_event imageRes p with
    | error e => simp [h1] at h
    | ok e =>
      cases h2 : decorate_all imageRes rest with
      | error e2 => simp [h1, h2] at h
      | ok es =>
        rw [h1, h2] at h
        cases h
        simp [ih es h2]

/-- C2: `generate_life_events` always answers with exactly `num_nodes`
events (never fewer, never an exception: in the model every failure is a
value), and on each of the claimed failure modes of the text generator -
the call raises, the response has no array-shaped substring, `json.loads`
fails on the extracted substring, or the parsed array is too short - the
answer is the deterministic fallback list, whose `time_months` and
`positivity_score` at every index equal the per-event configuration
(`events_config`) computed before the generator was invoked. -/
theorem generate_life_events_total (time_in_months positivity : Int)
    (num_nodes : Nat) (randT randP : Nat → Int) (gen : Except Unit String)
    (loads : String → Except Unit (List PyElem))
    (imageRes : Nat → Except Unit (String × String)) :
    (generate_life_events time_in_months positivity num_nodes randT randP gen
        loads imageRes).length = num_nodes ∧
    ((gen = .error () ∨
      (∀ t, gen = .ok t →
        extract_json_str t = none ∨
        (∃ js, extract_json_str t = some js ∧
          (loads js = .error () ∨
           (∃ evs, loads js = .ok evs ∧ evs.length < num_nodes))))) →
      generate_life_events time_in_months positivity num_nodes randT randP gen
          loads imageRes
        = fallback_events time_in_months positivity randT randP num_nodes ∧
      (∀ i, i < num_nodes →
        ∃ fields,
          (generate_life_events time_in_months positivity num_nodes randT randP
              gen loads imageRes)[i]? = some (.dict fields) ∧
          getKey? fields "time_months" =
            some (.vInt (if time_in_months > 0 then time_in_months else randT i)) ∧
          getKey? fields "positivity_score" =
            some (.vInt (if positivity ≥ 0 then positivity else randP i)))) := by
  have hfb : ∀ i, i < num_nodes →
      ∃ fields,
        (fallback_events time_in_months positivity randT randP num_nodes)[i]?
          = some (.dict fields) ∧
        getKey? fields "time_months" =
          some (.vInt (if time_in_months > 0 then time_in_months else randT i)) ∧
        getKey? fields "positivity_score" =
          some (.vInt (if positivity ≥ 0 then positivity else randP i)) := by
    intro i hi
    refine ⟨_, fallback_events_getElem time_in_months positivity randT randP
      num_nodes i hi, rfl, rfl⟩
  constructor
  · cases gen with
    | error e =>
      simpa [generate_life_events] using
        fallback_events_length time_in_months positivity randT randP num_nodes
    | ok t =>
      cases hext : extract_json_str t with
      | none =>
        simpa [generate_life_events, hext] using
          fallback_events_length time_in_months positivity randT randP num_nodes
      | some js =>
        cases hld : loads js with
        | error e =>
          simpa [generate_life_events, hext, hld] using
            fallback_events_length time_in_months positivity randT randP num_nodes
        | ok evs =>
          by_cases hlen : num_nodes ≤ evs.length
          · cases hdec : decorate_all imageRes (evs.take num_nodes).enum with
            | error e =>
              simpa [generate_life_events, hext, hld, hlen, hdec] using
                fallback_events_length time_in_months positivity randT randP num_nodes
            | ok out =>
              have hl := decorate_all_ok_length imageRes _ out hdec
              simp only [generate_life_events, hext, hld, if_pos hlen, hdec]
              rw [hl]
              simp [List.enum_length, List.length_take, Nat.min_eq_left hlen]
          · simpa [generate_life_events, hext, hld, hlen] using
              fallback_events_length time_in_months positivity randT randP num_nodes
  · intro hcond
    have heq : generate_life_events time_in_months positivity num_nodes randT randP
        gen loads imageRes
        = fallback_events time_in_months positivity randT randP num_nodes := by
      cases gen with
      | error e =>
        cases e
        simp [generate_life_events]
      | ok t =>
        rcases hcond with h | h
        · cases h
        rcases h t rfl with hext | ⟨js, hext, hrest⟩
        · simp [generate_life_events, hext]
        · rcases hrest with hld | ⟨evs, hld, hlen⟩
          · simp [generate_life_events, hext, hld]
          · simp [generate_life_events, hext, hld, Nat.not_le.mpr hlen]
    refine ⟨heq, ?_⟩
    rw [heq]
    exact hfb

/-- Witness for C2: three requested events, a garbage generator response
and a failing parse yield exactly three placeholders, whose time and
positivity equal the pre-computed per-event configuration (randomized here
since the request fixes neither). -/
theorem generate_life_events_total_witness :
    (generate_life_events 0 (-1) 3 (fun i => (i : Int) + 5) (fun i => (i : Int) + 50)
        (.ok "garbage") (fun _ => .error ()) (fun _ => .error ())).length = 3 ∧
    generate_life_events 0 (-1) 3 (fun i => (i : Int) + 5) (fun i => (i : Int) + 50)
        (.ok "garbage") (fun _ => .error ()) (fun _ => .error ())
      = fallback_events 0 (-1) (fun i => (i : Int) + 5) (fun i => (i : Int) + 50) 3 ∧
    ∃ fields,
      (generate_life_events 0 (-1) 3 (fun i => (i : Int) + 5) (fun i => (i : Int) + 50)
          (.ok "garbage") (fun _ => .error ()) (fun _ => .error ()))[1]?
        = some (.dict fields) ∧
      getKey? fields "time_months" = some (.vInt 6) ∧
      getKey? fields "positivity_score" = some (.vInt 51) := by
  have h := generate_life_events_total 0 (-1) 3 (fun i => (i : Int) + 5)
    (fun i => (i : Int) + 50) (.ok "garbage") (fun _ => .error ())
    (fun _ => .error ())
  have hcond := h.2 (Or.inr (fun t ht => by
    cases ht
    exact Or.inl (by rfl)))
  refine ⟨h.1, hcond.1, ?_⟩
  obtain ⟨fields, h1, h2, h3⟩ := hcond.2 1 (by decide)
  exact ⟨fields, h1, by simpa using h2, by simpa using h3⟩

/-! ### C4: per-job image failure isolation -/

/-- Replacing the value at key `k` does not disturb lookups of `k2 ≠ k`. -/
theorem find?_map_replace (d : List (String × PyVal)) (k k2 : String) (v : PyVal)
    (h : k2 ≠ k) :
    (d.map (fun p => if p.1 == k then (k, v) else p)).find? (fun p => p.1 == k2)
      = d.find? (fun p => p.1 == k2) := by
  induction d with
  | nil => rfl
  | cons a rest ih =>
    by_cases hk : (a.1 == k) = true
    · have ha1 : a.1 = k := by simpa using hk
      have h1 : (k == k2) = false := by
        simp only [beq_eq_false_iff_ne, ne_eq]
        exact fun he => h he.symm
      have h2 : (a.1 == k2) = false := by
        rw [ha1]
        exact h1
      rw [List.map_cons, if_pos hk]
      simp only [List.find?, h1, h2]
      exact ih
    · rw [List.map_cons, if_neg hk]
      cases hc : (a.1 == k2) with
      | true => simp only [List.find?, hc]
      | false =>
        simp only [List.find?, hc]
        exact ih

/-- Replacing the value at a key present in the dict makes lookups of that
key find the new value. -/
theorem find?_map_replace_same (d : List (String × PyVal)) (k : String) (v : PyVal)
    (hany : d.any (fun p => p.1 == k) = true) :
    (d.map (fun p => if p.1 == k then (k, v) else p)).find? (fun p => p.1 == k)
      = some (k, v) := by
  induction d with
  | nil => simp at hany
  | cons a rest ih =>
    by_cases hk : (a.1 == k) = true
    · rw [List.map_cons, if_pos hk]
      simp only [List.find?, beq_self_eq_true]
    · have hk2 : (a.1 == k) = false := by simpa using hk
      have hrest : rest.any (fun p => p.1 == k) = true := by
        simp only [List.any_cons, hk2, Bool.false_or] at hany
        exact hany
      rw [List.map_cons, if_neg hk]
      simp only [List.find?, hk2]
      exact ih hrest

/-- Looking up the key just written by a dict assignment. -/
theorem getKey?_setKey_same (d : List (String × PyVal)) (k : String) (v : PyVal) :
    getKey? (setKey d k v) k = some v := by
  rw [setKey]
  split_ifs with hany
  · rw [getKey?, find?_map_replace_same d k v hany]
    rfl
  · have hnone : d.find? (fun p => p.1 == k) = none := by
      rw [List.find?_eq_none]
      intro p hp
      have := List.any_eq_false.mp (Bool.eq_false_iff.mpr hany)
      simpa using this p hp
    rw [getKey?, List.find?_append, hnone]
    simp only [List.find?, beq_self_eq_true, Option.none_or]
    rfl

/-- Dict assignment leaves every other key unchanged. -/
theorem getKey?_setKey_other (d : List (String × PyVal)) (k k2 : String) (v : PyVal)
    (h : k2 ≠ k) :
    getKey? (setKey d k v) k2 = getKey? d k2 := by
  rw [setKey]
  split_ifs with hany
  · rw [getKey?, find?_map_replace d k k2 v h, getKey?]
  · have hfalse : (k == k2) = false := by
      simp only [beq_eq_false_iff_ne, ne_eq]
      exact fun he => h he.symm
    rw [getKey?, List.find?_append]
    simp only [List.find?, hfalse, Option.or_none]
    rfl

/-- Decorating an event dict that carries `name` and `description` always
succeeds and writes exactly the image fields determined by that event's own
gathered task outcome. -/
theorem decorate_event_ok (imageRes : Nat → Except Unit (String × String))
    (i : Nat) (d : List (String × PyVal))
    (hn : (getKey? d "name").isSome) (hd : (getKey? d "description").isSome) :
    decorate_event imageRes (i, .dict d)
      = .ok (.dict (setKey (setKey d "image_name"
          (.vStr (image_outcome imageRes i).1)) "image_url"
          (.vStr (image_outcome imageRes i).2))) := by
  obtain ⟨nv, hnv⟩ := Option.isSome_iff_exists.mp hn
  obtain ⟨dv, hdv⟩ := Option.isSome_iff_exists.mp hd
  simp [decorate_event, elemGet, hnv, hdv]

/-- The decoration pass over a batch of well-formed indexed events
succeeds, and the result at position `j` is the event at position `j` with
the image fields of its own task outcome written in - independent of every
other task's outcome. -/
theorem decorate_all_ok_getElem (imageRes : Nat → Except Unit (String × String)) :
    ∀ l : List (Nat × PyElem),
      (∀ p ∈ l, ∃ d, p.2 = .dict d ∧ (getKey? d "name").isSome ∧
        (getKey? d "description").isSome) →
      ∃ out : List PyElem, decorate_all imageRes l = .ok out ∧
        out.length = l.length ∧
        (∀ (j i : Nat) (d : List (String × PyVal)), l[j]? = some (i, PyElem.dict d) →
          out[j]? = some (PyElem.dict (setKey (setKey d "image_name"
            (.vStr (image_outcome imageRes i).1)) "image_url"
            (.vStr (image_outcome imageRes i).2)))) := by
  intro l
  induction l with
  | nil =>
    intro _
    exact ⟨[], rfl, rfl, by intro j i d h; simp at h⟩
  | cons p rest ih =>
    intro hgood
    obtain ⟨d0, hd0, hn0, hdesc0⟩ := hgood p (List.mem_cons_self p rest)
    obtain ⟨outR, hR, hlenR, hgetR⟩ :=
      ih (fun q hq => hgood q (List.mem_cons_of_mem p hq))
    have hp : p = (p.1, PyElem.dict d0) := by
      rw [← hd0]
    have hdec : decorate_event imageRes p
        = .ok (.dict (setKey (setKey d0 "image_name"
            (.vStr (image_outcome imageRes p.1).1)) "image_url"
            (.vStr (image_outcome imageRes p.1).2))) := by
      rw [hp]
      exact decorate_event_ok imageRes p.1 d0 hn0 hdesc0
    refine ⟨_, by rw [decorate_all, hdec, hR], by simpa using hlenR, ?_⟩
    intro j i d hj
    cases j with
    | zero =>
      rw [hp] at hj
      simp only [List.getElem?_cons_zero, Option.some_inj] at hj
      have hi : p.1 = i := congrArg Prod.fst hj
      have hdd : PyElem.dict d0 = PyElem.dict d := congrArg Prod.snd hj
      cases hdd
      rw [← hi]
      simp
    | succ j2 =>
      simp only [List.getElem?_cons_succ] at hj ⊢
      exact hgetR j2 i d hj

/-- C4: per-job image failure isolation.  First conjunct: each of the
claimed per-job failure kinds - missing API key, a generator exception
(captured by the enclosing handler), a stream with no inline image, an
upload error - makes `generate_event_image` answer empty image fields
rather than raise.  Remaining conjuncts: on the success path of a batch of
`num_nodes` events, the batch always comes back whole, each event `j`
receives exactly the image fields of its own task outcome
(`image_outcome imageRes j`, which is `("", "")` when task `j` raised), so
one failing image job never disturbs the other events or fails the
batch. -/
theorem generate_event_image_isolation (time_in_months positivity : Int)
    (num_nodes : Nat) (randT randP : Nat → Int)
    (loads : String → Except Unit (List PyElem))
    (imageRes : Nat → Except Unit (String × String)) (t js : String)
    (evs : List PyElem)
    (hext : extract_json_str t = some js) (hld : loads js = .ok evs)
    (hlen : num_nodes ≤ evs.length)
    (hgood : ∀ p ∈ evs.take num_nodes, ∃ d, p = .dict d ∧
      (getKey? d "name").isSome ∧ (getKey? d "description").isSome) :
    (∀ (env : ImgEnv) (user_id event_name : String),
      (env.hasApiKey = false ∨ env.stream = .error () ∨ env.stream = .ok none ∨
        env.uploadOk = false) →
      generate_event_image env user_id event_name = ("", "")) ∧
    (∀ k, imageRes k = .error () → image_outcome imageRes k = ("", "")) ∧
    (generate_life_events time_in_months positivity num_nodes randT randP
        (.ok t) loads imageRes).length = num_nodes ∧
    (∀ j, j < num_nodes → ∀ d, evs[j]? = some (.dict d) →
      (generate_life_events time_in_months positivity num_nodes randT randP
          (.ok t) loads imageRes)[j]?
        = some (.dict (setKey (setKey d "image_name"
            (.vStr (image_outcome imageRes j).1)) "image_url"
            (.vStr (image_outcome imageRes j).2)))) := by
  have henum : ∀ p ∈ (evs.take num_nodes).enum, ∃ d, p.2 = .dict d ∧
      (getKey? d "name").isSome ∧ (getKey? d "description").isSome := by
    intro p hp
    have hsnd : p.2 ∈ evs.take num_nodes := by
      rw [← List.enum_map_snd (evs.take num_nodes)]
      exact List.mem_map_of_mem Prod.snd hp
    exact hgood p.2 hsnd
  obtain ⟨out, hdec, hlenout, hget⟩ :=
    decorate_all_ok_getElem imageRes (evs.take num_nodes).enum henum
  have hres : generate_life_events time_in_months positivity num_nodes randT randP
      (.ok t) loads imageRes = out := by
    simp [generate_life_events, hext, hld, if_pos hlen, hdec]
  refine ⟨?_, ?_, ?_, ?_⟩
  · intro env user_id event_name h
    rcases h with h | h | h | h
    · simp [generate_event_image, h]
    · simp [generate_event_image, h]
    · simp [generate_event_image, h]
    · cases hstream : env.stream with
      | error e => simp [generate_event_image, hstream]
      | ok o =>
        cases o with
        | none => simp [generate_event_image, hstream]
        | some inline => simp [generate_event_image, hstream, h]
  · intro k hk
    simp [image_outcome, hk]
  · rw [hres, hlenout]
    simp [List.enum_length, List.length_take, Nat.min_eq_left hlen]
  · intro j hj d hjd
    rw [hres]
    refine hget j j d ?_
    rw [List.getElem?_enum]
    have : (evs.take num_nodes)[j]? = some (.dict d) := by
      rw [List.getElem?_take]
      simp [hj, hjd]
    rw [this]
    rfl

/-- Witness for C4: a two-event batch where the image job of event 0 raises
and that of event 1 succeeds; event 0 gets empty image fields, event 1 its
filename and URL, and the batch still holds both events. -/
theorem generate_event_image_isolation_witness :
    (∀ (env : ImgEnv) (user_id event_name : String),
      (env.hasApiKey = false ∨ env.stream = .error () ∨ env.stream = .ok none ∨
        env.uploadOk = false) →
      generate_event_image env user_id event_name = ("", "")) ∧
    (∀ k, (fun i => if i == 0 then (.error () : Except Unit (String × String))
        else .ok ("f.png", "http://u")) k = .error () →
      image_outcome (fun i => if i == 0 then .error () else .ok ("f.png", "http://u")) k
        = ("", "")) ∧
    (generate_life_events 6 50 2 (fun _ => 0) (fun _ => 0) (.ok "x[y]z")
        (fun _ => .ok [.dict [("name", .vStr "A"), ("description", .vStr "dA")],
                       .dict [("name", .vStr "B"), ("description", .vStr "dB")]])
        (fun i => if i == 0 then .error () else .ok ("f.png", "http://u"))).length = 2 ∧
    (∀ j, j < 2 → ∀ d,
      ([.dict [("name", .vStr "A"), ("description", .vStr "dA")],
        .dict [("name", .vStr "B"), ("description", .vStr "dB")]] :
          List PyElem)[j]? = some (.dict d) →
      (generate_life_events 6 50 2 (fun _ => 0) (fun _ => 0) (.ok "x[y]z")
          (fun _ => .ok [.dict [("name", .vStr "A"), ("description", .vStr "dA")],
                         .dict [("name", .vStr "B"), ("description", .vStr "dB")]])
          (fun i => if i == 0 then .error () else .ok ("f.png", "http://u")))[j]?
        = some (.dict (setKey (setKey d "image_name"
            (.vStr (image_outcome
              (fun i => if i == 0 then .error () else .ok ("f.png", "http://u")) j).1))
            "image_url"
            (.vStr (image_outcome
              (fun i => if i == 0 then .error () else .ok ("f.png", "http://u")) j).2)))) :=
  generate_event_image_isolation 6 50 2 (fun _ => 0) (fun _ => 0)
    (fun _ => .ok [.dict [("name", .vStr "A"), ("description", .vStr "dA")],
                   .dict [("name", .vStr "B"), ("description", .vStr "dB")]])
    (fun i => if i == 0 then .error () else .ok ("f.png", "http://u"))
    "x[y]z" "[y]"
    [.dict [("name", .vStr "A"), ("description", .vStr "dA")],
     .dict [("name", .vStr "B"), ("description", .vStr "dB")]]
    (by rfl) (by rfl) (by decide)
    (by
      intro p hp
      simp only [List.take, List.mem_cons, List.not_mem_nil, or_false] at hp
      rcases hp with rfl | rfl
      · exact ⟨_, rfl, rfl, rfl⟩
      · exact ⟨_, rfl, rfl, rfl⟩)

/-! ### C5: defaulting of missing candidate fields in `add_node` -/

/-- Inversion principle for `Except` sequencing. -/
theorem exceptBind_ok {α β : Type} (x : Except Unit α) (f : α → Except Unit β)
    (c : β) : (x >>= f) = .ok c ↔ ∃ b, x = .ok b ∧ f b = .ok c := by
  cases x <;> simp [Bind.bind, Except.bind]

/-- Counterexample to C5 as stated: a parsed element carrying `name`,
`description`, `title`, `time_months` and `positivity_score` but no `type`
does not get `type` defaulted from the request - the `ai_content["type"]`
indexing raises `KeyError` and node construction fails (failing the whole
add-node request with a 500) instead of yielding a node. -/
theorem build_node_missing_type_is_error :
    build_node { user_id := "u1", clicked_node_id := "Now-u1", time_in_months := 6,
                 positivity := 50, num_nodes := 1, previous_nodes := [] }
      (fun _ => 7) (fun _ => 8) 0 [] 0
      (.dict [("name", .vStr "Test Event"), ("description", .vStr "D"),
              ("title", .vStr "T"), ("time_months", .vInt 5),
              ("positivity_score", .vInt 50)])
      = .error () := by
  rfl

/-- C5 as amended: `time_months` and `positivity_score` are the only fields
of the three that node construction defaults from the request parameters
(the fixed value when the request fixes it, otherwise the per-event
randomized draw); `type` - like `title` - must be present, since the code
indexes it directly.  For an element carrying `name`, `description`, `type`
and `title` but neither `time_months` nor `positivity_score`, construction
succeeds and fills `timeInMonths` by the defaulting rule. -/
theorem build_node_defaults (req : AddNodeRequest) (randT randP : Nat → Int)
    (created_at : Nat) (return_nodes : List NodeRec) (i : Nat)
    (d : List (String × PyVal)) (nm ds tp tt : String)
    (hn : getKey? d "name" = some (.vStr nm))
    (hd : getKey? d "description" = some (.vStr ds))
    (ht : getKey? d "type" = some (.vStr tp))
    (htt : getKey? d "title" = some (.vStr tt))
    (hnt : getKey? d "time_months" = none)
    (hnp : getKey? d "positivity_score" = none)
    (hni : getKey? d "image_name" = none)
    (hnu : getKey? d "image_url" = none) :
    build_node req randT randP created_at return_nodes i (.dict d)
      = .ok { id := resolveId (return_nodes.map (fun n => n.id)) (readable_base_id nm),
              name := nm, title := tt, type := tp, image_name := "",
              image_url := "",
              timeInMonths :=
                if req.time_in_months > 0 then req.time_in_months else randT i,
              description := ds, created_at := created_at,
              user_id := req.user_id } := by
  simp [build_node, build_node_fields, elemGet, elemGetD, asStr, hn, hd, ht, htt,
    hnt, hnp, hni, hnu, Bind.bind, Except.bind]

/-- Witness for the amended C5: a concrete element with only `name`,
`description`, `type`, `title` still yields a node, its time defaulted to
the request's fixed positive value. -/
theorem build_node_defaults_witness :
    build_node { user_id := "u1", clicked_node_id := "Now-u1", time_in_months := 6,
                 positivity := 50, num_nodes := 1, previous_nodes := [] }
      (fun _ => 7) (fun _ => 8) 0 [] 0
      (.dict [("name", .vStr "Test Event"), ("description", .vStr "D"),
              ("title", .vStr "T"), ("type", .vStr "career")])
      = .ok { id := "Test Event", name := "Test Event", title := "T",
              type := "career", image_name := "", image_url := "",
              timeInMonths := 6, description := "D", created_at := 0,
              user_id := "u1" } := by
  have h := build_node_defaults
    { user_id := "u1", clicked_node_id := "Now-u1", time_in_months := 6,
      positivity := 50, num_nodes := 1, previous_nodes := [] }
    (fun _ => 7) (fun _ => 8) 0 [] 0
    [("name", .vStr "Test Event"), ("description", .vStr "D"),
     ("title", .vStr "T"), ("type", .vStr "career")]
    "Test Event" "D" "career" "T" rfl rfl rfl rfl rfl rfl rfl rfl
  simpa using h

/-! ### C6: unique, deterministic node-id assignment -/

/-- The decimal rendering does not depend on the fuel, once sufficient. -/
theorem natCharsAux_irrel : ∀ f1 f2 n, n < f1 → n < f2 →
    natCharsAux f1 n = natCharsAux f2 n := by
  intro f1
  induction f1 with
  | zero => intro f2 n h1 _; exact absurd h1 (Nat.not_lt_zero n)
  | succ f ih =>
    intro f2 n h1 h2
    cases f2 with
    | zero => exact absurd h2 (Nat.not_lt_zero n)
    | succ g =>
      by_cases h10 : n < 10
      · simp [natCharsAux, h10]
      · have hd : n / 10 < n := Nat.div_lt_self (by omega) (by omega)
        simp only [natCharsAux, if_neg h10]
        rw [ih g (n / 10) (by omega) (by omega)]

/-- A decimal rendering is never empty. -/
theorem natCharsAux_ne_nil (n : Nat) : natCharsAux (n + 1) n ≠ [] := by
  by_cases h10 : n < 10 <;> simp [natCharsAux, h10]

/-- The digit characters of distinct digits are distinct. -/
theorem digitChar_inj10 : ∀ a < 10, ∀ b < 10, digitChar a = digitChar b → a = b := by
  decide

/-- Decimal renderings of distinct naturals are distinct. -/
theorem natChars_inj : ∀ a b : Nat,
    natCharsAux (a + 1) a = natCharsAux (b + 1) b → a = b := by
  intro a
  induction a using Nat.strong_induction_on with
  | _ a ih =>
    intro b h
    by_cases ha : a < 10 <;> by_cases hb : b < 10
    · simp only [natCharsAux, if_pos ha, if_pos hb, List.cons.injEq, and_true] at h
      exact digitChar_inj10 a ha b hb h
    · exfalso
      simp only [natCharsAux, if_pos ha, if_neg hb] at h
      have hlen := congrArg List.length h
      simp only [List.length_cons, List.length_nil, List.length_append] at hlen
      have hb10 : b / 10 < b := Nat.div_lt_self (by omega) (by omega)
      have heq := natCharsAux_irrel b (b / 10 + 1) (b / 10) (by omega) (by omega)
      have h0 : (natCharsAux b (b / 10)).length = 0 := by omega
      rw [heq] at h0
      exact natCharsAux_ne_nil (b / 10) (List.length_eq_zero.mp h0)
    · exfalso
      simp only [natCharsAux, if_neg ha, if_pos hb] at h
      have hlen := congrArg List.length h
      simp only [List.length_cons, List.length_nil, List.length_append] at hlen
      have ha10 : a / 10 < a := Nat.div_lt_self (by omega) (by omega)
      have heq := natCharsAux_irrel a (a / 10 + 1) (a / 10) (by omega) (by omega)
      have h0 : (natCharsAux a (a / 10)).length = 0 := by omega
      rw [heq] at h0
      exact natCharsAux_ne_nil (a / 10) (List.length_eq_zero.mp h0)
    · simp only [natCharsAux, if_neg ha, if_neg hb] at h
      have hrev := congrArg List.reverse h
      simp only [List.reverse_append, List.reverse_cons, List.reverse_nil,
        List.nil_append, List.cons_append, List.cons.injEq] at hrev
      obtain ⟨hdig, hpre⟩ := hrev
      have hmod : a % 10 = b % 10 :=
        digitChar_inj10 (a % 10) (Nat.mod_lt a (by omega)) (b % 10)
          (Nat.mod_lt b (by omega)) hdig
      have hpre2 : natCharsAux a (a / 10) = natCharsAux b (b / 10) :=
        List.reverse_injective hpre
      have ha10 : a / 10 < a := Nat.div_lt_self (by omega) (by omega)
      have hb10 : b / 10 < b := Nat.div_lt_self (by omega) (by omega)
      rw [natCharsAux_irrel a (a / 10 + 1) (a / 10) (by omega) (by omega),
        natCharsAux_irrel b (b / 10 + 1) (b / 10) (by omega) (by omega)] at hpre2
      have hdiv := ih (a / 10) ha10 (b / 10) hpre2
      have hda := Nat.div_add_mod a 10
      have hdb := Nat.div_add_mod b 10
      omega

/-- Two strings with the same character data are equal. -/
theorem string_data_ext (s t : String) (h : s.data = t.data) : s = t := by
  cases s
  cases t
  exact congrArg String.mk h

/-- `natStr` is injective. -/
theorem natStr_inj (a b : Nat) (h : natStr a = natStr b) : a = b := by
  apply natChars_inj
  have := congrArg String.data h
  simpa [natStr] using this

/-- The candidate ids examined by the collision loop are pairwise
distinct. -/
theorem resolve_cand_inj (base : String) :
    ∀ i j, resolve_cand base i = resolve_cand base j → i = j := by
  have hdata : ∀ k, (resolve_cand base (k + 1)).data
      = base.data ++ ([' '] ++ (natStr (k + 1)).data) := by
    intro k
    show (base ++ " " ++ natStr (k + 1)).data = _
    simp [String.data_append, List.append_assoc]
  intro i j h
  match i, j with
  | 0, 0 => rfl
  | 0, j + 1 =>
    exfalso
    have hlen := congrArg (fun s => s.data.length) h
    simp only [resolve_cand] at hlen
    rw [show (base ++ " " ++ natStr (j + 1)).data
        = base.data ++ ([' '] ++ (natStr (j + 1)).data) by
      simp [String.data_append, List.append_assoc]] at hlen
    simp [List.length_append] at hlen
  | i + 1, 0 =>
    exfalso
    have hlen := congrArg (fun s => s.data.length) h
    simp only [resolve_cand] at hlen
    rw [show (base ++ " " ++ natStr (i + 1)).data
        = base.data ++ ([' '] ++ (natStr (i + 1)).data) by
      simp [String.data_append, List.append_assoc]] at hlen
    simp [List.length_append] at hlen
  | i + 1, j + 1 =>
    have hd := congrArg String.data h
    simp only [resolve_cand] at hd
    rw [show (base ++ " " ++ natStr (i + 1)).data
        = base.data ++ ([' '] ++ (natStr (i + 1)).data) by
      simp [String.data_append, List.append_assoc],
      show (base ++ " " ++ natStr (j + 1)).data
        = base.data ++ ([' '] ++ (natStr (j + 1)).data) by
      simp [String.data_append, List.append_assoc]] at hd
    have h2 := List.append_cancel_left hd
    simp only [List.cons_append, List.nil_append, List.cons.injEq, true_and] at h2
    have := natStr_inj (i + 1) (j + 1) (string_data_ext _ _ h2)
    omega

/-- If some candidate within the fuel budget is fresh, the collision loop
answers an id not yet assigned. -/
theorem resolveIdAux_fresh (existing : List String) (base : String) :
    ∀ fuel t, (∃ j, j < fuel ∧ resolve_cand base (t + j) ∉ existing) →
      resolveIdAux existing base (resolve_cand base t) (t + 1) fuel ∉ existing := by
  intro fuel
  induction fuel with
  | zero =>
    rintro t ⟨j, hj, _⟩
    exact absurd hj (Nat.not_lt_zero j)
  | succ f ih =>
    rintro t ⟨j, hj, hfree⟩
    by_cases hcur : resolve_cand base t ∈ existing
    · rw [resolveIdAux, if_pos hcur]
      have hc : base ++ " " ++ natStr (t + 1) = resolve_cand base (t + 1) := rfl
      rw [hc]
      apply ih (t + 1)
      cases j with
      | zero => exact absurd (by simpa using hfree) (by simpa using hcur)
      | succ j2 =>
        refine ⟨j2, by omega, ?_⟩
        have harith : t + (j2 + 1) = t + 1 + j2 := by omega
        rwa [harith] at hfree
    · rw [resolveIdAux, if_neg hcur]
      exact hcur

/-- The id the collision loop assigns never collides with an id assigned
earlier in the batch: among the `existing.length + 1` pairwise-distinct
candidates the loop can examine, at least one is fresh. -/
theorem resolveId_fresh (existing : List String) (base : String) :
    resolveId existing base ∉ existing := by
  have hpig : ∃ j, j < existing.length + 1 ∧ resolve_cand base (0 + j) ∉ existing := by
    by_contra hcon
    push_neg at hcon
    have hsub : ∀ x ∈ (List.range (existing.length + 1)).map (resolve_cand base),
        x ∈ existing := by
      intro x hx
      obtain ⟨j, hj, rfl⟩ := List.mem_map.mp hx
      simpa using hcon j (List.mem_range.mp hj)
    have hnd : ((List.range (existing.length + 1)).map (resolve_cand base)).Nodup :=
      (List.nodup_range (existing.length + 1)).map
        (fun a b hab => resolve_cand_inj base a b hab)
    have hle := (hnd.subperm hsub).length_le
    simp only [List.length_map, List.length_range] at hle
    omega
  have := resolveIdAux_fresh existing base (existing.length + 1) 0 hpig
  simpa [resolveId, resolve_cand] using this

/-- Whatever else it does, a successful node construction assigns as id the
collision-loop result against exactly the ids already assigned in this
batch (the persisted ids play no part). -/
theorem build_node_ok_id (req : AddNodeRequest) (randT randP : Nat → Int)
    (created_at : Nat) (acc : List NodeRec) (i : Nat) (ev : PyElem) (n : NodeRec)
    (h : build_node req randT randP created_at acc i ev = .ok n) :
    ∃ base, n.id = resolveId (acc.map (fun m => m.id)) base := by
  rw [build_node] at h
  simp only [exceptBind_ok, Except.ok.injEq] at h
  obtain ⟨nameS, -, f, -, hfin⟩ := h
  exact ⟨readable_base_id nameS, by rw [← hfin]⟩

/-- The candidate loop preserves and extends batch-unique ids: starting
from an accumulator of pairwise-distinct ids, a successful run appends one
node per candidate and keeps all ids pairwise distinct. -/
theorem build_return_nodes_ok (req : AddNodeRequest) (randT randP : Nat → Int)
    (created_at : Nat) :
    ∀ (ai_events : List PyElem) (i : Nat) (acc out : List NodeRec),
      build_return_nodes req randT randP created_at i acc ai_events = .ok out →
      (acc.map (fun n => n.id)).Nodup →
      out.length = acc.length + ai_events.length ∧
      (out.map (fun n => n.id)).Nodup := by
  intro ai_events
  induction ai_events with
  | nil =>
    intro i acc out h hnd
    simp only [build_return_nodes, Except.ok.injEq] at h
    subst h
    exact ⟨by simp, hnd⟩
  | cons ev rest ih =>
    intro i acc out h hnd
    simp only [build_return_nodes] at h
    rw [exceptBind_ok] at h
    obtain ⟨n, hbn, hrest⟩ := h
    have hfresh : n.id ∉ acc.map (fun m => m.id) := by
      obtain ⟨base, hbase⟩ := build_node_ok_id req randT randP created_at acc i ev n hbn
      rw [hbase]
      exact resolveId_fresh _ base
    have hnd2 : ((acc ++ [n]).map (fun m => m.id)).Nodup := by
      rw [List.map_append]
      rw [List.nodup_append]
      refine ⟨hnd, List.nodup_singleton _, ?_⟩
      intro x hx
      simp only [List.map_cons, List.map_nil, List.mem_cons, List.not_mem_nil,
        or_false]
      intro hxe
      rw [hxe] at hx
      exact hfresh hx
    obtain ⟨hlen, hout⟩ := ih (i + 1) (acc ++ [n]) out hrest hnd2
    constructor
    · simp only [List.length_append, List.length_cons, List.length_nil] at hlen ⊢
      omega
    · exact hout

/-- C6: for every batch of candidates - in particular batches where several
candidates share the id derived from the first at-most-3 words of their
name - a successful `add_node` candidate loop assigns one node per
candidate with pairwise-distinct ids, resolving collisions by the
incrementing `"{base} {counter}"` suffix against the ids assigned earlier
in the batch.  Determinism in candidate order is definitional: the ids are
a pure function of the candidate list (same list, same ids). -/
theorem add_node_unique_ids (req : AddNodeRequest) (randT randP : Nat → Int)
    (created_at : Nat) (ai_events : List PyElem) (out : List NodeRec)
    (h : build_return_nodes req randT randP created_at 0 [] ai_events = .ok out) :
    out.length = ai_events.length ∧ (out.map (fun n => n.id)).Nodup := by
  have := build_return_nodes_ok req randT randP created_at ai_events 0 [] out h
    (by simp)
  simpa using this

/-- Witness for C6: two candidates whose names share the first three words
(`"Start a business now"`, `"Start a business later"`) get the distinct ids
`"Start a business"` and `"Start a business 1"`. -/
theorem add_node_unique_ids_witness :
    ([{ id := "Start a business", name := "Start a business now", title := "T1",
        type := "career", image_name := "", image_url := "", timeInMonths := 6,
        description := "D1", created_at := 0, user_id := "u1" },
      { id := "Start a business 1", name := "Start a business later", title := "T2",
        type := "career", image_name := "", image_url := "", timeInMonths := 6,
        description := "D2", created_at := 0, user_id := "u1" }] :
        List NodeRec).length
      = ([.dict [("name", .vStr "Start a business now"),
                 ("description", .vStr "D1"), ("title", .vStr "T1"),
                 ("type", .vStr "career")],
          .dict [("name", .vStr "Start a business later"),
                 ("description", .vStr "D2"), ("title", .vStr "T2"),
                 ("type", .vStr "career")]] : List PyElem).length ∧
    (([{ id := "Start a business", name := "Start a business now", title := "T1",
         type := "career", image_name := "", image_url := "", timeInMonths := 6,
         description := "D1", created_at := 0, user_id := "u1" },
       { id := "Start a business 1", name := "Start a business later", title := "T2",
         type := "career", image_name := "", image_url := "", timeInMonths := 6,
         description := "D2", created_at := 0, user_id := "u1" }] :
         List NodeRec).map (fun n => n.id)).Nodup :=
  add_node_unique_ids
    { user_id := "u1", clicked_node_id := "Now-u1", time_in_months := 6,
      positivity := 50, num_nodes := 2, previous_nodes := [] }
    (fun _ => 7) (fun _ => 8) 0
    [.dict [("name", .vStr "Start a business now"),
            ("description", .vStr "D1"), ("title", .vStr "T1"),
            ("type", .vStr "career")],
     .dict [("name", .vStr "Start a business later"),
            ("description", .vStr "D2"), ("title", .vStr "T2"),
            ("type", .vStr "career")]]
    _ (by rfl)

/-! ### C10: id conflicts with persisted rows in `add_node` -/

/-- Node inserts never touch the link table. -/
theorem insert_node_if_absent_links (db : DB) (n : NodeRec) :
    (insert_node_if_absent db n).links = db.links := by
  rw [insert_node_if_absent]
  split_ifs <;> rfl

/-- Folded node inserts never touch the link table. -/
theorem foldl_insert_node_links : ∀ (l : List NodeRec) (db : DB),
    (l.foldl insert_node_if_absent db).links = db.links := by
  intro l
  induction l with
  | nil => intro db; rfl
  | cons n rest ih =>
    intro db
    rw [List.foldl_cons, ih, insert_node_if_absent_links]

/-- Link inserts never touch the node table. -/
theorem insert_link_if_absent_nodes (db : DB) (l : LinkRec) :
    (insert_link_if_absent db l).nodes = db.nodes := by
  rw [insert_link_if_absent]
  split_ifs <;> rfl

/-- Folded link inserts never touch the node table. -/
theorem foldl_insert_link_nodes : ∀ (ll : List LinkRec) (db : DB),
    (ll.foldl insert_link_if_absent db).nodes = db.nodes := by
  intro ll
  induction ll with
  | nil => intro db; rfl
  | cons l rest ih =>
    intro db
    rw [List.foldl_cons, ih, insert_link_if_absent_nodes]

/-- A conflict-safe node insert keeps every stored row. -/
theorem mem_insert_node_if_absent (db : DB) (n m : NodeRec) (h : m ∈ db.nodes) :
    m ∈ (insert_node_if_absent db n).nodes := by
  rw [insert_node_if_absent]
  split_ifs
  · exact h
  · exact List.mem_append.mpr (Or.inl h)

/-- Folded conflict-safe node inserts keep every stored row. -/
theorem mem_foldl_insert_node : ∀ (l : List NodeRec) (db : DB) (m : NodeRec),
    m ∈ db.nodes → m ∈ (l.foldl insert_node_if_absent db).nodes := by
  intro l
  induction l with
  | nil => intro db m h; exact h
  | cons n rest ih =>
    intro db m h
    exact ih (insert_node_if_absent db n) m (mem_insert_node_if_absent db n m h)

/-- A conflict-safe link insert keeps every stored link row. -/
theorem mem_insert_link_if_absent (db : DB) (l l0 : LinkRec) (h : l0 ∈ db.links) :
    l0 ∈ (insert_link_if_absent db l).links := by
  rw [insert_link_if_absent]
  split_ifs
  · exact h
  · exact List.mem_append.mpr (Or.inl h)

/-- Folded conflict-safe link inserts keep every stored link row. -/
theorem mem_foldl_insert_link : ∀ (ll : List LinkRec) (db : DB) (l0 : LinkRec),
    l0 ∈ db.links → l0 ∈ (ll.foldl insert_link_if_absent db).links := by
  intro ll
  induction ll with
  | nil => intro db l0 h; exact h
  | cons l rest ih =>
    intro db l0 h
    exact ih (insert_link_if_absent db l) l0 (mem_insert_link_if_absent db l l0 h)

/-- When some row already occupies id `X`, a conflict-safe insert leaves
the set of rows with id `X` untouched: an insert under id `X` is skipped,
an insert under another id lands outside the filter. -/
theorem filter_id_insert_node (db : DB) (n : NodeRec) (X : String)
    (hocc : ∃ m ∈ db.nodes, m.id = X) :
    (insert_node_if_absent db n).nodes.filter (fun x => x.id == X)
      = db.nodes.filter (fun x => x.id == X) := by
  obtain ⟨m0, hm0, hm0id⟩ := hocc
  rw [insert_node_if_absent]
  split_ifs with hany
  · rfl
  · have hne : (n.id == X) = false := by
      rw [beq_eq_false_iff_ne]
      intro hx
      refine hany ?_
      rw [List.any_eq_true]
      exact ⟨m0, hm0, by rw [hm0id, hx]; simp⟩
    simp [List.filter_append, hne]

/-- `filter_id_insert_node`, folded over a whole batch. -/
theorem filter_id_foldl_insert_node : ∀ (l : List NodeRec) (db : DB) (X : String),
    (∃ m ∈ db.nodes, m.id = X) →
    ((l.foldl insert_node_if_absent db).nodes.filter (fun x => x.id == X))
      = db.nodes.filter (fun x => x.id == X) := by
  intro l
  induction l with
  | nil => intro db X _; rfl
  | cons n rest ih =>
    intro db X hocc
    obtain ⟨m0, hm0, hm0id⟩ := hocc
    rw [List.foldl_cons,
      ih (insert_node_if_absent db n) X
        ⟨m0, mem_insert_node_if_absent db n m0 hm0, hm0id⟩,
      filter_id_insert_node db n X ⟨m0, hm0, hm0id⟩]

/-- A link whose id is fresh in the store and unique in the batch is
inserted by the link-insert fold. -/
theorem foldl_insert_links_mem (lk : LinkRec) : ∀ (ll : List LinkRec) (db : DB),
    (∀ l0 ∈ db.links, l0.id ≠ lk.id) → lk ∈ ll →
    (∀ l1 ∈ ll, l1.id = lk.id → l1 = lk) →
    lk ∈ (ll.foldl insert_link_if_absent db).links := by
  intro ll
  induction ll with
  | nil =>
    intro db _ hmem _
    exact absurd hmem (List.not_mem_nil lk)
  | cons l rest ih =>
    intro db hfresh hmem huniq
    by_cases hl : l = lk
    · subst hl
      have hany : (db.links.any (fun m2 => m2.id == l.id)) = false := by
        rw [List.any_eq_false]
        intro l0 hl0
        simpa using hfresh l0 hl0
      have hins : l ∈ (insert_link_if_absent db l).links := by
        rw [insert_link_if_absent, if_neg (by simp [hany])]
        exact List.mem_append.mpr (Or.inr (List.mem_cons_self l []))
      exact mem_foldl_insert_link rest (insert_link_if_absent db l) l hins
    · have hid : l.id ≠ lk.id := fun he =>
        hl (huniq l (List.mem_cons_self l rest) he)
      have hmem2 : lk ∈ rest := by
        rcases List.mem_cons.mp hmem with he | he
        · exact absurd he.symm hl
        · exact he
      refine ih (insert_link_if_absent db l) ?_ hmem2
        (fun l1 h1 he => huniq l1 (List.mem_cons_of_mem l h1) he)
      intro l0 hl0
      rw [insert_link_if_absent] at hl0
      split_ifs at hl0
      · exact hfresh l0 hl0
      · rcases List.mem_append.mp hl0 with h0 | h0
        · exact hfresh l0 h0
        · rw [List.mem_singleton.mp h0]
          exact hid

/-- The clicked node used for link construction carries the clicked id,
whether found among the prior nodes or fabricated. -/
theorem clicked_node_of_id (req : AddNodeRequest) (created_at : Nat) :
    (clicked_node_of req created_at).id = req.clicked_node_id := by
  rw [clicked_node_of]
  cases hf : req.previous_nodes.find? (fun n => n.id == req.clicked_node_id) with
  | none => rfl
  | some n =>
    have := List.find?_some hf
    simpa using this

/-- C10: the id-collision loop checks only ids assigned earlier in the same
batch, so a constructed node can carry the id of an already persisted row;
the conflict-skipping insert then leaves the stored row unchanged (and
stores nothing new under that id), yet the response still contains the
freshly constructed record under that id and the link targeting that id is
still created - the returned node list differs from what is stored. -/
theorem add_node_conflict_response_diverges (req : AddNodeRequest)
    (randT randP : Nat → Int) (created_at : Nat) (ai_events : List PyElem)
    (db : DB) (ns : List NodeRec) (nk m : NodeRec)
    (hbuild : build_return_nodes req randT randP created_at 0 [] ai_events = .ok ns)
    (hk : nk ∈ ns) (hm : m ∈ db.nodes) (hid : nk.id = m.id) (hne : nk ≠ m)
    (huniq : ∀ x ∈ db.nodes, x.id = m.id → x = m)
    (hclick : req.clicked_node_id ≠ "")
    (hlfresh : ∀ l0 ∈ db.links,
      l0.id ≠ link_id req.clicked_node_id nk.id req.user_id)
    (hlinj : ∀ n2 ∈ ns, link_id req.clicked_node_id n2.id req.user_id
        = link_id req.clicked_node_id nk.id req.user_id → n2.id = nk.id) :
    ∃ db2 : DB,
      add_node_persist req randT randP created_at ai_events db = .ok (ns, db2) ∧
      nk ∈ ns ∧
      m ∈ db2.nodes ∧
      db2.nodes.filter (fun x => x.id == m.id)
        = db.nodes.filter (fun x => x.id == m.id) ∧
      nk ∉ db2.nodes ∧
      ({ id := link_id req.clicked_node_id nk.id req.user_id,
         source := req.clicked_node_id, target := nk.id,
         timeInMonths := req.time_in_months, userId := req.user_id } : LinkRec)
        ∈ db2.links := by
  have hcid := clicked_node_of_id req created_at
  refine ⟨((ns.map (fun n =>
      ({ id := link_id (clicked_node_of req created_at).id n.id req.user_id,
         source := (clicked_node_of req created_at).id, target := n.id,
         timeInMonths := req.time_in_months,
         userId := req.user_id } : LinkRec))).foldl insert_link_if_absent
        (ns.foldl insert_node_if_absent
          (insert_node_if_absent db (clicked_node_of req created_at)))),
    ?_, hk, ?_, ?_, ?_, ?_⟩
  · simp [add_node_persist, hbuild, hclick, Bind.bind, Except.bind]
  · rw [foldl_insert_link_nodes]
    exact mem_foldl_insert_node ns _ m
      (mem_insert_node_if_absent db _ m hm)
  · rw [foldl_insert_link_nodes,
      filter_id_foldl_insert_node ns _ m.id
        ⟨m, mem_insert_node_if_absent db _ m hm, rfl⟩,
      filter_id_insert_node db _ m.id ⟨m, hm, rfl⟩]
  · intro hmem
    have hfl : nk ∈ ((ns.map (fun n =>
        ({ id := link_id (clicked_node_of req created_at).id n.id req.user_id,
           source := (clicked_node_of req created_at).id, target := n.id,
           timeInMonths := req.time_in_months,
           userId := req.user_id } : LinkRec))).foldl insert_link_if_absent
          (ns.foldl insert_node_if_absent
            (insert_node_if_absent db (clicked_node_of req created_at)))).nodes.filter
          (fun x => x.id == m.id) :=
      List.mem_filter.mpr ⟨hmem, by simp [hid]⟩
    rw [foldl_insert_link_nodes,
      filter_id_foldl_insert_node ns _ m.id
        ⟨m, mem_insert_node_if_absent db _ m hm, rfl⟩,
      filter_id_insert_node db _ m.id ⟨m, hm, rfl⟩] at hfl
    have hnk_db : nk ∈ db.nodes := (List.mem_filter.mp hfl).1
    exact hne (huniq nk hnk_db hid)
  · have hlk : ({ id := link_id req.clicked_node_id nk.id req.user_id,
                  source := req.clicked_node_id, target := nk.id,
                  timeInMonths := req.time_in_months,
                  userId := req.user_id } : LinkRec)
        = { id := link_id (clicked_node_of req created_at).id nk.id req.user_id,
            source := (clicked_node_of req created_at).id, target := nk.id,
            timeInMonths := req.time_in_months, userId := req.user_id } := by
      rw [hcid]
    rw [hlk]
    refine foldl_insert_links_mem _ _ _ ?_ ?_ ?_
    · intro l0 hl0
      rw [foldl_insert_node_links, insert_node_if_absent_links] at hl0
      have := hlfresh l0 hl0
      simpa [hcid] using this
    · exact List.mem_map_of_mem _ hk
    · intro l1 h1 he
      obtain ⟨n2, hn2, rfl⟩ := List.mem_map.mp h1
      simp only at he
      have hn2id : n2.id = nk.id := by
        refine hlinj n2 hn2 ?_
        rw [← hcid]
        exact he
      rw [hn2id]


/-- Witness for C10: a freshly built node whose derived id `"Test Event"`
equals a persisted row's id; the stored row survives unchanged, the fresh
record is returned but never stored, and the clicked-node link targeting
`"Test Event"` is created. -/
theorem add_node_conflict_response_diverges_witness :
    ∃ db2 : DB,
      add_node_persist
          { user_id := "u1", clicked_node_id := "Now-u1", time_in_months := 6,
            positivity := 50, num_nodes := 1, previous_nodes := [] }
          (fun _ => 7) (fun _ => 8) 0
          [.dict [("name", .vStr "Test Event"), ("description", .vStr "D"),
                  ("title", .vStr "T"), ("type", .vStr "career")]]
          { nodes := [{ id := "Test Event", name := "Old Name", title := "Old",
                        type := "life-event", image_name := "", image_url := "",
                        timeInMonths := 3, description := "Old D",
                        created_at := 0, user_id := "u1" }], links := [] }
        = .ok ([{ id := "Test Event", name := "Test Event", title := "T",
                  type := "career", image_name := "", image_url := "",
                  timeInMonths := 6, description := "D", created_at := 0,
                  user_id := "u1" }], db2) ∧
      ({ id := "Test Event", name := "Test Event", title := "T",
         type := "career", image_name := "", image_url := "",
         timeInMonths := 6, description := "D", created_at := 0,
         user_id := "u1" } : NodeRec)
        ∈ [{ id := "Test Event", name := "Test Event", title := "T",
             type := "career", image_name := "", image_url := "",
             timeInMonths := 6, description := "D", created_at := 0,
             user_id := "u1" }] ∧
      ({ id := "Test Event", name := "Old Name", title := "Old",
         type := "life-event", image_name := "", image_url := "",
         timeInMonths := 3, description := "Old D", created_at := 0,
         user_id := "u1" } : NodeRec) ∈ db2.nodes ∧
      db2.nodes.filter (fun x => x.id == "Test Event")
        = ([{ id := "Test Event", name := "Old Name", title := "Old",
              type := "life-event", image_name := "", image_url := "",
              timeInMonths := 3, description := "Old D", created_at := 0,
              user_id := "u1" }] : List NodeRec).filter
            (fun x => x.id == "Test Event") ∧
      ({ id := "Test Event", name := "Test Event", title := "T",
         type := "career", image_name := "", image_url := "",
         timeInMonths := 6, description := "D", created_at := 0,
         user_id := "u1" } : NodeRec) ∉ db2.nodes ∧
      ({ id := link_id "Now-u1" "Test Event" "u1", source := "Now-u1",
         target := "Test Event", timeInMonths := 6,
         userId := "u1" } : LinkRec) ∈ db2.links :=
  add_node_conflict_response_diverges
    { user_id := "u1", clicked_node_id := "Now-u1", time_in_months := 6,
      positivity := 50, num_nodes := 1, previous_nodes := [] }
    (fun _ => 7) (fun _ => 8) 0
    [.dict [("name", .vStr "Test Event"), ("description", .vStr "D"),
            ("title", .vStr "T"), ("type", .vStr "career")]]
    { nodes := [{ id := "Test Event", name := "Old Name", title := "Old",
                  type := "life-event", image_name := "", image_url := "",
                  timeInMonths := 3, description := "Old D",
                  created_at := 0, user_id := "u1" }], links := [] }
    [{ id := "Test Event", name := "Test Event", title := "T",
       type := "career", image_name := "", image_url := "",
       timeInMonths := 6, description := "D", created_at := 0,
       user_id := "u1" }]
    { id := "Test Event", name := "Test Event", title := "T",
      type := "career", image_name := "", image_url := "",
      timeInMonths := 6, description := "D", created_at := 0, user_id := "u1" }
    { id := "Test Event", name := "Old Name", title := "Old",
      type := "life-event", image_name := "", image_url := "",
      timeInMonths := 3, description := "Old D", created_at := 0,
      user_id := "u1" }
    (by rfl) (by decide) (by decide) (by decide) (by decide) (by decide)
    (by decide)
    (by intro l0 hl0; simp at hl0)
    (by
      intro n2 hn2 _h
      rw [List.mem_singleton.mp hn2])
